import Mathlib

/-!
Bulk update service (`pkg/pipeline/BulkUpdateService.go`)

A shallow embedding of `GetBulkAppName`, `ApplyJsonPatch` and
`BulkUpdateDeploymentTemplate`.

* The repository (`bulkUpdate.BulkUpdateRepository`) and the JSON patch library
  (`jsonpatch`) are external collaborators: they are parameters of the model.  Every
  repository call is a function of the store `σ` returning a result and the next store,
  so a fetch may depend on earlier writes and may fail at any time.
* Every repository call and every patch application is recorded, in order, in
  `World.calls`.  Logger calls are not modelled.
* A Go `error` is `Option Err` (`none` is `nil`); a `(value, error)` result of a
  collaborator is `Except Err value`, because the code never reads the value next to a
  non-nil error.
* Go `int` values are identifiers only (no arithmetic is done on them): they are `Int`.
* A Go `map[int]string` is `GoMap`, an association list with at most one entry per key.
-/

namespace BulkUpdate

/-- Go error values. -/
abbrev Err := String

/-! ## Data model -/

structure NameIncludesExcludes where
  Names : List String
  deriving DecidableEq, Repr

structure Spec where
  PatchJson : String
  deriving DecidableEq, Repr

structure Tasks where
  Spec : Spec
  deriving DecidableEq, Repr

structure BulkUpdatePayload where
  Includes : NameIncludesExcludes
  Excludes : NameIncludesExcludes
  EnvIds : List Int
  Global : Bool
  DeploymentTemplate : Tasks
  deriving DecidableEq, Repr

/-- One entry of the impacted objects listing; `EnvId` left unset is the Go zero value `0`. -/
structure ImpactedObjectsResponse where
  AppId : Int
  AppName : String
  EnvId : Int
  deriving DecidableEq, Repr

/-- The fields of an application row that `GetBulkAppName` reads. -/
structure App where
  Id : Int
  AppName : String
  deriving DecidableEq, Repr

/-- The fields of a global chart row that `BulkUpdateDeploymentTemplate` reads. -/
structure Chart where
  Id : Int
  Values : String
  deriving DecidableEq, Repr

/-- The fields of an environment override row that `BulkUpdateDeploymentTemplate` reads. -/
structure EnvConfigOverride where
  Id : Int
  EnvOverrideValues : String
  deriving DecidableEq, Repr

/-! ## Go maps -/

/-- A `map[int]string`. -/
abbrev GoMap := List (Int × String)

namespace GoMap

/-- The result of `make(map[int]string)`. -/
def empty : GoMap := []

/-- The value of `v, ok := m[k]`. -/
def get? (m : GoMap) (k : Int) : Option String :=
  match m with
  | [] => none
  | (k', v) :: rest => if k' = k then some v else get? rest k

/-- The map after `m[k] = v`. -/
def set (m : GoMap) (k : Int) (v : String) : GoMap :=
  (k, v) :: m.filter (fun p => !decide (p.1 = k))

end GoMap

/-! ## Collaborators -/

deriving instance DecidableEq for Except

/-- A call made to a collaborator, with its arguments and what it returned. -/
inductive Call where
  | FindBulkAppNameForGlobal (includes excludes : List String)
      (result : Except Err (List App))
  | FindBulkAppNameForEnv (includes excludes : List String) (envId : Int)
      (result : Except Err (List App))
  | FindBulkChartsByAppNameSubstring (includes excludes : List String)
      (result : Except Err (List Chart))
  | FindBulkChartsEnvByAppNameSubstring (includes excludes : List String) (envId : Int)
      (result : Except Err (List EnvConfigOverride))
  | BulkUpdateChartsValuesYamlAndGlobalOverrideById (m : GoMap) (err : Option Err)
  | BulkUpdateChartsEnvYamlOverrideById (m : GoMap) (err : Option Err)
  | Apply (target : String) (result : Except Err String)
  deriving DecidableEq

/-- The store behind the repository together with the calls made so far, oldest first. -/
structure World (σ : Type) where
  db : σ
  calls : List Call
  deriving DecidableEq

/-- The methods of `bulkUpdate.BulkUpdateRepository` used by the service. -/
structure BulkUpdateRepository (σ : Type) where
  FindBulkAppNameForGlobal : List String → List String → σ → Except Err (List App) × σ
  FindBulkAppNameForEnv : List String → List String → Int → σ → Except Err (List App) × σ
  FindBulkChartsByAppNameSubstring :
    List String → List String → σ → Except Err (List Chart) × σ
  FindBulkChartsEnvByAppNameSubstring :
    List String → List String → Int → σ → Except Err (List EnvConfigOverride) × σ
  BulkUpdateChartsValuesYamlAndGlobalOverrideById : GoMap → σ → Option Err × σ
  BulkUpdateChartsEnvYamlOverrideById : GoMap → σ → Option Err × σ

/-- The two functions of the `jsonpatch` library used by the service, over its patch type. -/
structure JsonPatch (P : Type) where
  DecodePatch : String → Except Err P
  Apply : P → String → Except Err String

/-! ## `GetBulkAppName` -/

/-- The body shared by the two `for _, app := range ...` loops of `GetBulkAppName`:
`track` is `AppTrackMap`, `out` is `impactedObjectsResponse`.  The global loop leaves
`EnvId` unset, which is `envId = 0`. -/
def trackApps (envId : Int) :
    List App → GoMap → List ImpactedObjectsResponse → GoMap × List ImpactedObjectsResponse
  | [], track, out => (track, out)
  | app :: rest, track, out =>
    match track.get? app.Id with
    | some _ => trackApps envId rest track out
    | none =>
      trackApps envId rest (track.set app.Id app.AppName)
        (out ++ [{ AppId := app.Id, AppName := app.AppName, EnvId := envId }])

/-- The body of the loop `for _, envId := range bulkUpdatePayload.EnvIds` of
`GetBulkAppName`; `some err` is an early `return nil, err`. -/
def envPass {σ : Type} (repo : BulkUpdateRepository σ) (includes excludes : List String)
    (envId : Int) (track : GoMap) (out : List ImpactedObjectsResponse) (w : World σ) :
    Option Err × GoMap × List ImpactedObjectsResponse × World σ :=
  match repo.FindBulkAppNameForEnv includes excludes envId w.db with
  | (.error err, db) =>
    (some err, track, out,
      ⟨db, w.calls ++ [Call.FindBulkAppNameForEnv includes excludes envId (.error err)]⟩)
  | (.ok appsNotGlobal, db) =>
    let r := trackApps envId appsNotGlobal track out
    (none, r.1, r.2,
      ⟨db, w.calls ++ [Call.FindBulkAppNameForEnv includes excludes envId (.ok appsNotGlobal)]⟩)

/-- The loop `for _, envId := range bulkUpdatePayload.EnvIds` of `GetBulkAppName`. -/
def envPasses {σ : Type} (repo : BulkUpdateRepository σ) (includes excludes : List String) :
    List Int → GoMap → List ImpactedObjectsResponse → World σ →
      Option Err × GoMap × List ImpactedObjectsResponse × World σ
  | [], track, out, w => (none, track, out, w)
  | envId :: rest, track, out, w =>
    match envPass repo includes excludes envId track out w with
    | (some err, track1, out1, w1) => (some err, track1, out1, w1)
    | (none, track1, out1, w1) => envPasses repo includes excludes rest track1 out1 w1

/-- The block `if bulkUpdatePayload.Global { ... }` of `GetBulkAppName`;
`some err` is an early `return nil, err`. -/
def globalPass {σ : Type} (repo : BulkUpdateRepository σ) (includes excludes : List String)
    (track : GoMap) (out : List ImpactedObjectsResponse) (w : World σ) :
    Option Err × GoMap × List ImpactedObjectsResponse × World σ :=
  match repo.FindBulkAppNameForGlobal includes excludes w.db with
  | (.error err, db) =>
    (some err, track, out,
      ⟨db, w.calls ++ [Call.FindBulkAppNameForGlobal includes excludes (.error err)]⟩)
  | (.ok appsGlobal, db) =>
    let r := trackApps 0 appsGlobal track out
    (none, r.1, r.2,
      ⟨db, w.calls ++ [Call.FindBulkAppNameForGlobal includes excludes (.ok appsGlobal)]⟩)

/-- The two blocks of `GetBulkAppName` in sequence, from the initial `AppTrackMap` and
`impactedObjectsResponse`: the state in which the function returns. -/
def resolvePasses {σ : Type} (repo : BulkUpdateRepository σ)
    (bulkUpdatePayload : BulkUpdatePayload) (w : World σ) :
    Option Err × GoMap × List ImpactedObjectsResponse × World σ :=
  let impactedObjectsResponse : List ImpactedObjectsResponse := []
  let AppTrackMap : GoMap := GoMap.empty
  let g : Option Err × GoMap × List ImpactedObjectsResponse × World σ :=
    if bulkUpdatePayload.Global then
      globalPass repo bulkUpdatePayload.Includes.Names bulkUpdatePayload.Excludes.Names
        AppTrackMap impactedObjectsResponse w
    else (none, AppTrackMap, impactedObjectsResponse, w)
  match g with
  | (some err, track, out, w1) => (some err, track, out, w1)
  | (none, track, out, w1) =>
    envPasses repo bulkUpdatePayload.Includes.Names bulkUpdatePayload.Excludes.Names
      bulkUpdatePayload.EnvIds track out w1

/-- `BulkUpdateServiceImpl.GetBulkAppName`; a `nil` slice is `none`. -/
def GetBulkAppName {σ : Type} (repo : BulkUpdateRepository σ)
    (bulkUpdatePayload : BulkUpdatePayload) (w : World σ) :
    (Option (List ImpactedObjectsResponse) × Option Err) × World σ :=
  match resolvePasses repo bulkUpdatePayload w with
  | (some err, _, _, w2) => ((none, some err), w2)
  | (none, _, out, w2) => ((some out, none), w2)

/-! ## `ApplyJsonPatch` and `BulkUpdateDeploymentTemplate` -/

/-- `BulkUpdateServiceImpl.ApplyJsonPatch`. -/
def ApplyJsonPatch {P : Type} (jp : JsonPatch P) (patch : P) (target : String) :
    String × Option Err :=
  match jp.Apply patch target with
  | .error err => ("Patch Failed", some err)
  | .ok modified => (modified, none)

/-- The body shared by the loops `for _, chart := range charts` and
`for _, chartEnv := range chartsEnv`, over the `(Id, values)` pairs of the fetched rows:
`m` is `UpdatedPatchMap`; `some err` is an early `return FailureMessage, err`. -/
def patchAll {P : Type} (jp : JsonPatch P) (patch : P) :
    List (Int × String) → GoMap → List Call → Option Err × GoMap × List Call
  | [], m, calls => (none, m, calls)
  | (id, values) :: rest, m, calls =>
    match ApplyJsonPatch jp patch values with
    | (_, some err) => (some err, m, calls ++ [Call.Apply values (jp.Apply patch values)])
    | (modified, none) =>
      patchAll jp patch rest (m.set id modified)
        (calls ++ [Call.Apply values (jp.Apply patch values)])

/-- The block `if bulkUpdatePayload.Global { ... }` of `BulkUpdateDeploymentTemplate`;
`some err` is an early `return FailureMessage, err`. -/
def globalScope {σ P : Type} (repo : BulkUpdateRepository σ) (jp : JsonPatch P) (patch : P)
    (includes excludes : List String) (m : GoMap) (w : World σ) :
    Option Err × GoMap × World σ :=
  match repo.FindBulkChartsByAppNameSubstring includes excludes w.db with
  | (.error err, db) =>
    (some err, m,
      ⟨db, w.calls ++ [Call.FindBulkChartsByAppNameSubstring includes excludes (.error err)]⟩)
  | (.ok charts, db) =>
    match patchAll jp patch (charts.map (fun chart => (chart.Id, chart.Values))) m
        (w.calls ++ [Call.FindBulkChartsByAppNameSubstring includes excludes (.ok charts)]) with
    | (some err, m', calls) => (some err, m', ⟨db, calls⟩)
    | (none, m', calls) =>
      match repo.BulkUpdateChartsValuesYamlAndGlobalOverrideById m' db with
      | (some err, db') =>
        (some err, m',
          ⟨db', calls ++ [Call.BulkUpdateChartsValuesYamlAndGlobalOverrideById m' (some err)]⟩)
      | (none, db') =>
        (none, m',
          ⟨db', calls ++ [Call.BulkUpdateChartsValuesYamlAndGlobalOverrideById m' none]⟩)

/-- The body of the loop `for _, envId := range bulkUpdatePayload.EnvIds` of
`BulkUpdateDeploymentTemplate`; `some err` is an early `return FailureMessage, err`. -/
def envScope {σ P : Type} (repo : BulkUpdateRepository σ) (jp : JsonPatch P) (patch : P)
    (includes excludes : List String) (envId : Int) (m : GoMap) (w : World σ) :
    Option Err × GoMap × World σ :=
  match repo.FindBulkChartsEnvByAppNameSubstring includes excludes envId w.db with
  | (.error err, db) =>
    (some err, m,
      ⟨db, w.calls ++
        [Call.FindBulkChartsEnvByAppNameSubstring includes excludes envId (.error err)]⟩)
  | (.ok chartsEnv, db) =>
    match patchAll jp patch
        (chartsEnv.map (fun chartEnv => (chartEnv.Id, chartEnv.EnvOverrideValues))) m
        (w.calls ++
          [Call.FindBulkChartsEnvByAppNameSubstring includes excludes envId (.ok chartsEnv)])
      with
    | (some err, m', calls) => (some err, m', ⟨db, calls⟩)
    | (none, m', calls) =>
      match repo.BulkUpdateChartsEnvYamlOverrideById m' db with
      | (some err, db') =>
        (some err, m', ⟨db', calls ++ [Call.BulkUpdateChartsEnvYamlOverrideById m' (some err)]⟩)
      | (none, db') =>
        (none, m', ⟨db', calls ++ [Call.BulkUpdateChartsEnvYamlOverrideById m' none]⟩)

/-- The loop `for _, envId := range bulkUpdatePayload.EnvIds` of
`BulkUpdateDeploymentTemplate`. -/
def envScopes {σ P : Type} (repo : BulkUpdateRepository σ) (jp : JsonPatch P) (patch : P)
    (includes excludes : List String) :
    List Int → GoMap → World σ → Option Err × GoMap × World σ
  | [], m, w => (none, m, w)
  | envId :: rest, m, w =>
    match envScope repo jp patch includes excludes envId m w with
    | (some err, m1, w1) => (some err, m1, w1)
    | (none, m1, w1) => envScopes repo jp patch includes excludes rest m1 w1

/-- The two blocks of `BulkUpdateDeploymentTemplate` that follow the decoding of the
patch, from the initial `UpdatedPatchMap`: the state in which the function returns. -/
def updateScopes {σ P : Type} (repo : BulkUpdateRepository σ) (jp : JsonPatch P) (patch : P)
    (bulkUpdatePayload : BulkUpdatePayload) (w : World σ) : Option Err × GoMap × World σ :=
  let UpdatedPatchMap : GoMap := GoMap.empty
  let g : Option Err × GoMap × World σ :=
    if bulkUpdatePayload.Global then
      globalScope repo jp patch bulkUpdatePayload.Includes.Names
        bulkUpdatePayload.Excludes.Names UpdatedPatchMap w
    else (none, UpdatedPatchMap, w)
  match g with
  | (some e, m1, w1) => (some e, m1, w1)
  | (none, m1, w1) =>
    envScopes repo jp patch bulkUpdatePayload.Includes.Names
      bulkUpdatePayload.Excludes.Names bulkUpdatePayload.EnvIds m1 w1

/-- `BulkUpdateServiceImpl.BulkUpdateDeploymentTemplate`.  The `err` of the last
`return SuccessMessage, err` is the one declared by `patch, err := DecodePatch(...)`,
which is `nil` once the first check is passed: the later `err`s are declared in inner
blocks. -/
def BulkUpdateDeploymentTemplate {σ P : Type} (repo : BulkUpdateRepository σ)
    (jp : JsonPatch P) (bulkUpdatePayload : BulkUpdatePayload) (w : World σ) :
    (String × Option Err) × World σ :=
  let FailureMessage := "Bulk Update Failed"
  let SuccessMessage := "Bulk Update is successful"
  match jp.DecodePatch bulkUpdatePayload.DeploymentTemplate.Spec.PatchJson with
  | .error err => ((FailureMessage, some err), w)
  | .ok patch =>
    let err : Option Err := none
    match updateScopes repo jp patch bulkUpdatePayload w with
    | (some e, _, w2) => ((FailureMessage, some e), w2)
    | (none, _, w2) => ((SuccessMessage, err), w2)

/-! ## Observations on a log of calls -/

/-- The error a call returned, if it failed. -/
def Call.failure : Call → Option Err
  | .FindBulkAppNameForGlobal _ _ r => match r with | .error e => some e | .ok _ => none
  | .FindBulkAppNameForEnv _ _ _ r => match r with | .error e => some e | .ok _ => none
  | .FindBulkChartsByAppNameSubstring _ _ r => match r with | .error e => some e | .ok _ => none
  | .FindBulkChartsEnvByAppNameSubstring _ _ _ r =>
    match r with | .error e => some e | .ok _ => none
  | .BulkUpdateChartsValuesYamlAndGlobalOverrideById _ err => err
  | .BulkUpdateChartsEnvYamlOverrideById _ err => err
  | .Apply _ r => match r with | .error e => some e | .ok _ => none

/-- What kind of call a call is, its payload forgotten. -/
inductive Kind where
  | fetchAppsGlobal
  | fetchAppsEnv (envId : Int)
  | fetchGlobal
  | fetchEnv (envId : Int)
  | writeGlobal
  | writeEnv
  | apply
  deriving DecidableEq

/-- The kind of a call. -/
def Call.kind : Call → Kind
  | .FindBulkAppNameForGlobal _ _ _ => .fetchAppsGlobal
  | .FindBulkAppNameForEnv _ _ e _ => .fetchAppsEnv e
  | .FindBulkChartsByAppNameSubstring _ _ _ => .fetchGlobal
  | .FindBulkChartsEnvByAppNameSubstring _ _ e _ => .fetchEnv e
  | .BulkUpdateChartsValuesYamlAndGlobalOverrideById _ _ => .writeGlobal
  | .BulkUpdateChartsEnvYamlOverrideById _ _ => .writeEnv
  | .Apply _ _ => .apply

/-- Whether a kind is one of the two bulk writes. -/
def Kind.isWrite : Kind → Bool
  | .writeGlobal => true
  | .writeEnv => true
  | _ => false

/-- Whether a call is one of the two bulk writes. -/
def Call.isWrite (c : Call) : Bool := c.kind.isWrite

/-- The fetch and write calls of a log, patch applications left out. -/
def scopeCalls (calls : List Call) : List Call :=
  calls.filter (fun c => decide (c.kind ≠ Kind.apply))

/-- One patch application per row, in order: the calls of the patch loop over `rows`. -/
def applyCalls {P : Type} (jp : JsonPatch P) (patch : P) (rows : List (Int × String)) :
    List Call :=
  rows.map (fun r => Call.Apply r.2 (jp.Apply patch r.2))

/-- No call of the log failed. -/
def Clean (calls : List Call) : Prop := ∀ c ∈ calls, c.failure = none

instance Clean.decidable (calls : List Call) : Decidable (Clean calls) :=
  inferInstanceAs (Decidable (∀ c ∈ calls, c.failure = none))

/-- How the calls `new` of a run relate to the error `err` it ends with: without an error
no call failed; with an error `e` the last call failed with `e` and no call before it
failed. -/
def Ends (err : Option Err) (new : List Call) : Prop :=
  match err with
  | none => Clean new
  | some e => ∃ init last, new = init ++ [last] ∧ Clean init ∧ last.failure = some e

/-- The kinds of the fetch and write calls of a run over the scopes of a selection in
which every scope completes. -/
def scopeKinds (global : Bool) (envIds : List Int) : List Kind :=
  (if global then [Kind.fetchGlobal, Kind.writeGlobal] else []) ++
    envIds.flatMap (fun e => [Kind.fetchEnv e, Kind.writeEnv])

/-- The map obtained from `m` by the assignments `m[k] = v` for the pairs of `kvs`, in
order. -/
def GoMap.assign (m : GoMap) (kvs : List (Int × String)) : GoMap :=
  kvs.foldl (fun acc kv => acc.set kv.1 kv.2) m

/-- The value a key has after the assignments of `kvs`, in order, to an empty map: the
value of the last pair with that key. -/
def lastValue (kvs : List (Int × String)) (k : Int) : Option String :=
  (kvs.reverse.find? (fun kv => decide (kv.1 = k))).map Prod.snd

/-! ## The selection semantics of the specification -/

/-- Stable first-seen-wins dedup by `Id`, in which the ids of `seen` count as already
emitted. -/
def firstSeen (seen : List Int) : List App → List App
  | [] => []
  | a :: rest =>
    if a.Id ∈ seen then firstSeen seen rest else a :: firstSeen (a.Id :: seen) rest

/-- The entry emitted for an application by the pass of `envId` (`0` in the global pass). -/
def entryOf (envId : Int) (a : App) : ImpactedObjectsResponse :=
  { AppId := a.Id, AppName := a.AppName, EnvId := envId }

/-- The state of the loops of `GetBulkAppName` is coherent: the keys of `AppTrackMap` are
the ids of the entries emitted so far, and no two entries share an id. -/
def Tracked (track : GoMap) (out : List ImpactedObjectsResponse) : Prop :=
  (∀ k, track.get? k = none ↔ k ∉ out.map ImpactedObjectsResponse.AppId) ∧
    (out.map ImpactedObjectsResponse.AppId).Nodup

/-! ## The maps given to the bulk writes -/

/-- The map a bulk write was given. -/
def Call.written : Call → Option GoMap
  | .BulkUpdateChartsValuesYamlAndGlobalOverrideById m _ => some m
  | .BulkUpdateChartsEnvYamlOverrideById m _ => some m
  | _ => none

/-- The `(Id, values)` rows a fetch of charts or of overrides returned. -/
def Call.fetchedRows : Call → List (Int × String)
  | .FindBulkChartsByAppNameSubstring _ _ (.ok charts) =>
    charts.map (fun chart => (chart.Id, chart.Values))
  | .FindBulkChartsEnvByAppNameSubstring _ _ _ (.ok chartsEnv) =>
    chartsEnv.map (fun chartEnv => (chartEnv.Id, chartEnv.EnvOverrideValues))
  | _ => []

/-- The rows with their values patched, in order; a row that does not patch is left out. -/
def patched {P : Type} (jp : JsonPatch P) (patch : P) (rows : List (Int × String)) :
    List (Int × String) :=
  rows.filterMap (fun r =>
    match jp.Apply patch r.2 with
    | .ok v => some (r.1, v)
    | .error _ => none)

/-- All rows fetched by the calls of a log, in order, with their values patched. -/
def patchedRows {P : Type} (jp : JsonPatch P) (patch : P) (calls : List Call) :
    List (Int × String) :=
  patched jp patch (calls.flatMap Call.fetchedRows)

/-- Every bulk write of `l`, a stretch of a run that follows the calls `pre` of the same
run, was given the map of the assignments `m[Id] = patched values`, in order, for all
rows fetched before it in the run. -/
def WritesCarry {P : Type} (jp : JsonPatch P) (patch : P) (pre l : List Call) : Prop :=
  ∀ before c after m, l = before ++ c :: after → c.written = some m →
    m = GoMap.empty.assign (patchedRows jp patch (pre ++ before))

/-- Every value of the map is the result of a successful application of the patch. -/
def Genuine {P : Type} (jp : JsonPatch P) (patch : P) (m : GoMap) : Prop :=
  ∀ k v, m.get? k = some v → ∃ t, jp.Apply patch t = Except.ok v


/-! ## The fetches of applications in a log -/

/-- The applications a fetch of applications returned. -/
def Call.fetchedApps : Call → List App
  | .FindBulkAppNameForGlobal _ _ (.ok apps) => apps
  | .FindBulkAppNameForEnv _ _ _ (.ok apps) => apps
  | _ => []

/-- The applications a fetch of applications returned, as entries annotated with the
scope of the fetch: `EnvId` is `0` for the global fetch and the environment id for the
fetch of an environment. -/
def Call.entries : Call → List ImpactedObjectsResponse
  | .FindBulkAppNameForGlobal _ _ (.ok apps) => apps.map (entryOf 0)
  | .FindBulkAppNameForEnv _ _ envId (.ok apps) => apps.map (entryOf envId)
  | _ => []

/-- First-seen-wins dedup by `AppId` of a list of entries, in which the ids of `seen`
count as already emitted. -/
def dedupFrom (seen : List Int) :
    List ImpactedObjectsResponse → List ImpactedObjectsResponse
  | [] => []
  | x :: rest =>
    if x.AppId ∈ seen then dedupFrom seen rest else x :: dedupFrom (x.AppId :: seen) rest

/-- First-seen-wins dedup by `AppId` of a list of entries. -/
def dedupByAppId (l : List ImpactedObjectsResponse) : List ImpactedObjectsResponse :=
  dedupFrom [] l

/-- The application an entry stands for. -/
def appOf (x : ImpactedObjectsResponse) : App := { Id := x.AppId, AppName := x.AppName }


/-! ## Sample collaborators and selections -/

/-- What a sample repository answers to each call. -/
structure Fixture where
  appsGlobal : Except Err (List App)
  appsEnv : Int → Except Err (List App)
  charts : Except Err (List Chart)
  chartsEnv : Int → Except Err (List EnvConfigOverride)
  writeGlobal : GoMap → Option Err
  writeEnv : GoMap → Option Err

/-- The repository of a fixture; its store counts the calls it has answered. -/
def Fixture.repo (f : Fixture) : BulkUpdateRepository Nat where
  FindBulkAppNameForGlobal := fun _ _ n => (f.appsGlobal, n + 1)
  FindBulkAppNameForEnv := fun _ _ envId n => (f.appsEnv envId, n + 1)
  FindBulkChartsByAppNameSubstring := fun _ _ n => (f.charts, n + 1)
  FindBulkChartsEnvByAppNameSubstring := fun _ _ envId n => (f.chartsEnv envId, n + 1)
  BulkUpdateChartsValuesYamlAndGlobalOverrideById := fun m n => (f.writeGlobal m, n + 1)
  BulkUpdateChartsEnvYamlOverrideById := fun m n => (f.writeEnv m, n + 1)

/-- The text of the patch that replaces `/image` by `"v2"`. -/
def replaceImageText : String :=
  "[\x7b\"op\":\"replace\",\"path\":\"/image\",\"value\":\"v2\"\x7d]"

/-- A document whose `/image` is `v`. -/
def imageDoc (v : String) : String := "\x7b\"image\":\"" ++ v ++ "\"\x7d"

/-- A patch library that knows one patch, the replacement of `/image` by `"v2"`, and
applies it to the documents `imageDoc "v1"` and `imageDoc "v2"` only. -/
def samplePatch : JsonPatch String where
  DecodePatch := fun text =>
    if text = replaceImageText then .ok "v2" else .error "invalid patch document"
  Apply := fun p target =>
    if target = imageDoc "v1" ∨ target = imageDoc "v2" then .ok (imageDoc p)
    else .error "replace operation does not apply: doc is missing path: /image"

/-- A selection of `app1` with the given scopes and patch text. -/
def selection (global : Bool) (envIds : List Int) (patchJson : String) : BulkUpdatePayload :=
  { Includes := { Names := ["app1"] }, Excludes := { Names := [] }, EnvIds := envIds,
    Global := global, DeploymentTemplate := { Spec := { PatchJson := patchJson } } }

/-- A fixture with one application, one global chart and one override per environment,
in which every call succeeds. -/
def healthy : Fixture where
  appsGlobal := .ok [{ Id := 1, AppName := "app1" }]
  appsEnv := fun _ => .ok [{ Id := 1, AppName := "app1" }]
  charts := .ok [{ Id := 1, Values := imageDoc "v1" }]
  chartsEnv := fun envId => .ok [{ Id := envId + 1, EnvOverrideValues := imageDoc "v1" }]
  writeGlobal := fun _ => none
  writeEnv := fun _ => none

/-- As `healthy`, but the second of the three overrides of environment 20 has no
`/image`. -/
def unpatchable20 : Fixture :=
  { healthy with
    chartsEnv := fun envId =>
      if envId = 20 then
        .ok [{ Id := 21, EnvOverrideValues := imageDoc "v1" },
             { Id := 22, EnvOverrideValues := "\x7b\"other\":\"x\"\x7d" },
             { Id := 23, EnvOverrideValues := imageDoc "v1" }]
      else healthy.chartsEnv envId }

/-- As `healthy`, but the fetch of the overrides of environment 20 fails. -/
def unreachable20 : Fixture :=
  { healthy with
    chartsEnv := fun envId =>
      if envId = 20 then .error "connection refused" else healthy.chartsEnv envId }

/-- As `healthy`, but the bulk write of the overrides fails. -/
def readOnlyOverrides : Fixture :=
  { healthy with writeEnv := fun _ => some "read-only transaction" }

/-- As `healthy`, but the global fetch of applications returns application `1` twice and
application `2` between the two, and the fetch of the applications of environment 20
fails. -/
def appsUnreachable20 : Fixture :=
  { healthy with
    appsGlobal := .ok [{ Id := 1, AppName := "app1" }, { Id := 2, AppName := "app2" },
      { Id := 1, AppName := "app1-again" }]
    appsEnv := fun envId =>
      if envId = 20 then .error "connection refused" else healthy.appsEnv envId }

/-- A selection of the global scope in which `app1` is both included and excluded. -/
def bothLists : BulkUpdatePayload :=
  { selection true [] "" with Excludes := { Names := ["app1"] } }

/-- As `healthy`, but the fetches of applications overlap: the global fetch returns the
applications `1` and `2`, the fetch of environment 10 the applications `2` and `3`, and
the fetch of any other environment the applications `3`, `1` and `4`. -/
def overlapping : Fixture :=
  { healthy with
    appsGlobal := .ok [{ Id := 1, AppName := "app1" }, { Id := 2, AppName := "app2" }]
    appsEnv := fun envId =>
      if envId = 10 then .ok [{ Id := 2, AppName := "app2" }, { Id := 3, AppName := "app3" }]
      else .ok [{ Id := 3, AppName := "app3" }, { Id := 1, AppName := "app1" },
        { Id := 4, AppName := "app4" }] }

/-- The calls of `GetBulkAppName` on the global scope and the environments `10` and `20`
with the fixture `overlapping`. -/
def overlappingCalls : List Call :=
  [Call.FindBulkAppNameForGlobal ["app1"] []
      (.ok [{ Id := 1, AppName := "app1" }, { Id := 2, AppName := "app2" }]),
    Call.FindBulkAppNameForEnv ["app1"] [] 10
      (.ok [{ Id := 2, AppName := "app2" }, { Id := 3, AppName := "app3" }]),
    Call.FindBulkAppNameForEnv ["app1"] [] 20
      (.ok [{ Id := 3, AppName := "app3" }, { Id := 1, AppName := "app1" },
        { Id := 4, AppName := "app4" }])]

/-- The result of `GetBulkAppName` on the global scope and the environments `10` and
`20` with the fixture `overlapping`. -/
def overlappingResult : List ImpactedObjectsResponse :=
  [{ AppId := 1, AppName := "app1", EnvId := 0 }, { AppId := 2, AppName := "app2", EnvId := 0 },
    { AppId := 3, AppName := "app3", EnvId := 10 },
    { AppId := 4, AppName := "app4", EnvId := 20 }]


/-- The store and log before a call. -/
def start : World Nat := { db := 0, calls := [] }

/-! ## Lemmas on Go maps -/

theorem GoMap.get?_filter_ne (m : GoMap) (k k' : Int) (h : k' ≠ k) :
    GoMap.get? (m.filter (fun p => !decide (p.1 = k))) k' = GoMap.get? m k' := by
  induction m with
  | nil => rfl
  | cons p rest ih =>
    obtain ⟨a, b⟩ := p
    by_cases ha : a = k
    · subst ha
      simp [GoMap.get?, ih, Ne.symm h]
    · simp [GoMap.get?, ha, ih]

theorem GoMap.get?_set (m : GoMap) (k : Int) (v : String) (k' : Int) :
    (m.set k v).get? k' = if k = k' then some v else m.get? k' := by
  unfold GoMap.set
  by_cases h : k = k'
  · simp [GoMap.get?, h]
  · simp [GoMap.get?, h, GoMap.get?_filter_ne m k k' (Ne.symm h)]

theorem GoMap.get?_assign (kvs : List (Int × String)) (m : GoMap) (k : Int) :
    (m.assign kvs).get? k = (lastValue kvs k).or (m.get? k) := by
  induction kvs generalizing m with
  | nil => simp [GoMap.assign, lastValue]
  | cons kv rest ih =>
    have h : m.assign (kv :: rest) = (m.set kv.1 kv.2).assign rest := rfl
    rw [h, ih, GoMap.get?_set]
    simp only [lastValue, List.reverse_cons, List.find?_append]
    cases hr : List.find? (fun kv => decide (kv.1 = k)) rest.reverse with
    | some x => simp
    | none =>
      by_cases hk : kv.1 = k
      · simp [hk]
      · simp [hk]

theorem GoMap.get?_assign_empty (kvs : List (Int × String)) (k : Int) :
    (GoMap.empty.assign kvs).get? k = lastValue kvs k := by
  rw [GoMap.get?_assign]
  cases lastValue kvs k <;> simp [GoMap.empty, GoMap.get?]

/-! ## Lemmas on first-seen dedup -/

theorem firstSeen_congr :
    ∀ (L : List App) (s1 s2 : List Int), (∀ k, k ∈ s1 ↔ k ∈ s2) →
      firstSeen s1 L = firstSeen s2 L
  | [], _, _, _ => rfl
  | a :: rest, s1, s2, h => by
    simp only [firstSeen]
    by_cases ha : a.Id ∈ s1
    · rw [if_pos ha, if_pos ((h _).1 ha)]
      exact firstSeen_congr rest s1 s2 h
    · rw [if_neg ha, if_neg (fun h2 => ha ((h _).2 h2))]
      congr 1
      apply firstSeen_congr
      intro k
      simp [h k]

theorem firstSeen_mem_ids (id : Int) :
    ∀ (L : List App) (seen : List Int),
      id ∈ (firstSeen seen L).map App.Id ↔ id ∈ L.map App.Id ∧ id ∉ seen
  | [], _ => by simp [firstSeen]
  | a :: rest, seen => by
    simp only [firstSeen]
    by_cases ha : a.Id ∈ seen
    · rw [if_pos ha, firstSeen_mem_ids id rest seen]
      simp only [List.map_cons, List.mem_cons]
      constructor
      · rintro ⟨h1, h2⟩
        exact ⟨Or.inr h1, h2⟩
      · rintro ⟨h1 | h1, h2⟩
        · rw [h1] at h2
          exact absurd ha h2
        · exact ⟨h1, h2⟩
    · rw [if_neg ha]
      simp only [List.map_cons, List.mem_cons, firstSeen_mem_ids id rest (a.Id :: seen),
        not_or]
      constructor
      · rintro (h | ⟨h1, _, h3⟩)
        · rw [h]
          exact ⟨Or.inl rfl, ha⟩
        · exact ⟨Or.inr h1, h3⟩
      · rintro ⟨h1 | h1, h2⟩
        · exact Or.inl h1
        · by_cases hid : id = a.Id
          · exact Or.inl hid
          · exact Or.inr ⟨h1, hid, h2⟩

theorem firstSeen_nodup :
    ∀ (L : List App) (seen : List Int), ((firstSeen seen L).map App.Id).Nodup
  | [], _ => by simp [firstSeen]
  | a :: rest, seen => by
    simp only [firstSeen]
    by_cases ha : a.Id ∈ seen
    · rw [if_pos ha]
      exact firstSeen_nodup rest seen
    · rw [if_neg ha, List.map_cons, List.nodup_cons]
      refine ⟨?_, firstSeen_nodup rest (a.Id :: seen)⟩
      rw [firstSeen_mem_ids]
      simp

theorem firstSeen_find (x : App) :
    ∀ (L : List App) (seen : List Int), x ∈ firstSeen seen L →
      L.find? (fun a => decide (a.Id = x.Id)) = some x
  | [], _, h => by simp [firstSeen] at h
  | a :: rest, seen, h => by
    simp only [firstSeen] at h
    by_cases ha : a.Id ∈ seen
    · rw [if_pos ha] at h
      have hx : x.Id ∈ (firstSeen seen rest).map App.Id := List.mem_map_of_mem _ h
      rw [firstSeen_mem_ids] at hx
      have hne : ¬ a.Id = x.Id := fun heq => hx.2 (heq ▸ ha)
      rw [List.find?_cons_of_neg _ (by simpa using hne)]
      exact firstSeen_find x rest seen h
    · rw [if_neg ha, List.mem_cons] at h
      rcases h with h | h
      · subst h
        simp
      · have hx : x.Id ∈ (firstSeen (a.Id :: seen) rest).map App.Id :=
          List.mem_map_of_mem _ h
        rw [firstSeen_mem_ids] at hx
        have hne : ¬ a.Id = x.Id := fun heq => hx.2 (by rw [heq]; simp)
        rw [List.find?_cons_of_neg _ (by simpa using hne)]
        exact firstSeen_find x rest (a.Id :: seen) h

theorem firstSeen_order :
    ∀ (L : List App) (seen : List Int),
      (firstSeen seen L).Pairwise
        (fun x y => (L.map App.Id).indexOf x.Id < (L.map App.Id).indexOf y.Id)
  | [], _ => by simp [firstSeen]
  | a :: rest, seen => by
    have shift : ∀ (s : List Int) (x y : App), x ∈ firstSeen s rest → y ∈ firstSeen s rest →
        a.Id ∈ s →
        (rest.map App.Id).indexOf x.Id < (rest.map App.Id).indexOf y.Id →
        ((a :: rest).map App.Id).indexOf x.Id < ((a :: rest).map App.Id).indexOf y.Id := by
      intro s x y hx hy hs hlt
      have hx1 : x.Id ∈ (firstSeen s rest).map App.Id := List.mem_map_of_mem _ hx
      have hy1 : y.Id ∈ (firstSeen s rest).map App.Id := List.mem_map_of_mem _ hy
      rw [firstSeen_mem_ids] at hx1 hy1
      have hxa : a.Id ≠ x.Id := fun heq => hx1.2 (heq ▸ hs)
      have hya : a.Id ≠ y.Id := fun heq => hy1.2 (heq ▸ hs)
      rw [List.map_cons, List.indexOf_cons_ne _ hxa, List.indexOf_cons_ne _ hya]
      exact Nat.succ_lt_succ hlt
    simp only [firstSeen]
    by_cases ha : a.Id ∈ seen
    · rw [if_pos ha]
      exact (firstSeen_order rest seen).imp_of_mem
        (fun hx hy hlt => shift seen _ _ hx hy ha hlt)
    · rw [if_neg ha, List.pairwise_cons]
      refine ⟨?_, (firstSeen_order rest (a.Id :: seen)).imp_of_mem
        (fun hx hy hlt => shift (a.Id :: seen) _ _ hx hy (by simp) hlt)⟩
      intro y hy
      have hy1 : y.Id ∈ (firstSeen (a.Id :: seen) rest).map App.Id := List.mem_map_of_mem _ hy
      rw [firstSeen_mem_ids] at hy1
      have hya : a.Id ≠ y.Id := fun heq => hy1.2 (by rw [heq]; simp)
      rw [List.map_cons, List.indexOf_cons_self, List.indexOf_cons_ne _ hya]
      exact Nat.succ_pos _

/-! ## Lemmas on the passes of `GetBulkAppName` -/

theorem entryOf_ids (envId : Int) (L : List App) :
    (L.map (entryOf envId)).map ImpactedObjectsResponse.AppId = L.map App.Id := by
  simp [List.map_map, Function.comp_def, entryOf]

theorem Tracked.empty : Tracked GoMap.empty [] := by
  constructor
  · intro k
    simp [GoMap.empty, GoMap.get?]
  · simp

theorem trackApps_spec (envId : Int) :
    ∀ (L : List App) (track : GoMap) (out : List ImpactedObjectsResponse),
      Tracked track out →
      (trackApps envId L track out).2 =
          out ++ (firstSeen (out.map ImpactedObjectsResponse.AppId) L).map (entryOf envId) ∧
        Tracked (trackApps envId L track out).1 (trackApps envId L track out).2
  | [], track, out, h => by simp [trackApps, firstSeen, h]
  | a :: rest, track, out, h => by
    cases hg : track.get? a.Id with
    | some v =>
      have hin : a.Id ∈ out.map ImpactedObjectsResponse.AppId := by
        by_contra hnot
        have := (h.1 a.Id).2 hnot
        rw [hg] at this
        cases this
      simp only [trackApps, hg, firstSeen, if_pos hin]
      exact trackApps_spec envId rest track out h
    | none =>
      have hnot : a.Id ∉ out.map ImpactedObjectsResponse.AppId := (h.1 a.Id).1 hg
      have h' : Tracked (track.set a.Id a.AppName)
          (out ++ [{ AppId := a.Id, AppName := a.AppName, EnvId := envId }]) := by
        constructor
        · intro k
          rw [GoMap.get?_set]
          by_cases hk : a.Id = k
          · subst hk
            simp
          · rw [if_neg hk, h.1 k]
            simp [Ne.symm hk]
        · rw [List.map_append, List.nodup_append]
          refine ⟨h.2, by simp, ?_⟩
          intro x hx hy
          simp only [List.map_cons, List.map_nil, List.mem_singleton] at hy
          rw [hy] at hx
          exact hnot hx
      obtain ⟨h1, h2⟩ := trackApps_spec envId rest _ _ h'
      simp only [trackApps, hg, firstSeen, if_neg hnot]
      refine ⟨?_, h2⟩
      rw [h1, List.append_assoc]
      congr 1
      simp only [List.singleton_append, List.map_cons]
      congr 1
      congr 1
      apply firstSeen_congr
      intro k
      simp [or_comm]

/-! ## Lemmas on the patch loop -/

theorem Clean.append {a b : List Call} (ha : Clean a) (hb : Clean b) : Clean (a ++ b) := by
  intro c hc
  rcases List.mem_append.1 hc with h | h
  · exact ha c h
  · exact hb c h

theorem Clean.nil : Clean [] := by
  intro c hc
  cases hc

theorem patchAll_ok {P : Type} (jp : JsonPatch P) (patch : P) :
    ∀ (rows : List (Int × String)) (vs : List String) (m : GoMap) (calls : List Call),
      List.Forall₂ (fun r v => jp.Apply patch r.2 = Except.ok v) rows vs →
      patchAll jp patch rows m calls =
        (none, m.assign ((rows.map Prod.fst).zip vs), calls ++ applyCalls jp patch rows) := by
  intro rows
  induction rows with
  | nil =>
    intro vs m calls h
    cases h
    simp [patchAll, GoMap.assign, applyCalls]
  | cons r rest ih =>
    intro vs m calls h
    cases h with
    | cons h1 h2 =>
      obtain ⟨id, values⟩ := r
      simp only at h1
      simp only [patchAll, ApplyJsonPatch, h1]
      rw [ih _ _ _ h2]
      simp [GoMap.assign, applyCalls, h1]

theorem patchAll_fail {P : Type} (jp : JsonPatch P) (patch : P) (c : Err) :
    ∀ (rs1 : List (Int × String)) (r : Int × String) (rs2 : List (Int × String))
      (m : GoMap) (calls : List Call),
      (∀ x ∈ rs1, ∃ v, jp.Apply patch x.2 = Except.ok v) →
      jp.Apply patch r.2 = Except.error c →
      ∃ m', patchAll jp patch (rs1 ++ r :: rs2) m calls =
        (some c, m', calls ++ applyCalls jp patch (rs1 ++ [r])) := by
  intro rs1
  induction rs1 with
  | nil =>
    intro r rs2 m calls _ hr
    obtain ⟨id, values⟩ := r
    simp only at hr
    exact ⟨m, by simp [patchAll, ApplyJsonPatch, hr, applyCalls]⟩
  | cons x rest ih =>
    intro r rs2 m calls hok hr
    obtain ⟨id, values⟩ := x
    obtain ⟨v, hv⟩ := hok (id, values) (List.mem_cons_self _ _)
    simp only at hv
    obtain ⟨m', hm'⟩ := ih r rs2 (m.set id v)
      (calls ++ [Call.Apply values (jp.Apply patch values)])
      (fun y hy => hok y (List.mem_cons_of_mem _ hy)) hr
    refine ⟨m', ?_⟩
    simp only [List.cons_append, patchAll, ApplyJsonPatch, hv, List.append_eq]
    rw [hv] at hm'
    rw [hm']
    simp [applyCalls, hv]

/-! ## Lemmas on the log of calls -/

theorem Ends.prepend {err : Option Err} {a b : List Call} (ha : Clean a) (hb : Ends err b) :
    Ends err (a ++ b) := by
  cases err with
  | none => exact Clean.append ha hb
  | some e =>
    obtain ⟨init, last, hnew, hinit, hlast⟩ := hb
    exact ⟨a ++ init, last, by rw [hnew, List.append_assoc], Clean.append ha hinit, hlast⟩

theorem Ends.last {e : Err} (init : List Call) {last : Call} (hinit : Clean init)
    (hlast : last.failure = some e) : Ends (some e) (init ++ [last]) :=
  ⟨init, last, rfl, hinit, hlast⟩

theorem Clean.single {c : Call} (h : c.failure = none) : Clean [c] := by
  intro x hx
  rw [List.mem_singleton] at hx
  rw [hx]
  exact h

theorem Ends.clean_iff {err : Option Err} {new : List Call} (h : Ends err new) :
    Clean new ↔ err = none := by
  cases err with
  | none => simp only [iff_true]; exact h
  | some e =>
    obtain ⟨init, last, hnew, _, hlast⟩ := h
    simp only [reduceCtorEq, iff_false]
    intro hc
    have := hc last (by rw [hnew]; simp)
    rw [hlast] at this
    cases this

theorem Ends.failed_is_last {err : Option Err} {new : List Call} (h : Ends err new)
    {c : Call} {e : Err} (hc : c ∈ new) (hfail : c.failure = some e) :
    err = some e ∧ ∃ init, new = init ++ [c] ∧ Clean init := by
  cases err with
  | none =>
    have := h c hc
    rw [hfail] at this
    cases this
  | some e' =>
    obtain ⟨init, last, hnew, hinit, hlast⟩ := h
    rw [hnew, List.mem_append, List.mem_singleton] at hc
    rcases hc with hc | hc
    · have := hinit c hc
      rw [hfail] at this
      cases this
    · subst hc
      rw [hfail] at hlast
      cases hlast
      exact ⟨rfl, init, hnew, hinit⟩

theorem scopeCalls_append (a b : List Call) :
    scopeCalls (a ++ b) = scopeCalls a ++ scopeCalls b := by
  simp [scopeCalls]

theorem scopeCalls_applies (l : List Call) (h : ∀ c ∈ l, c.kind = Kind.apply) :
    scopeCalls l = [] := by
  simp only [scopeCalls, List.filter_eq_nil_iff]
  intro c hc
  simp [h c hc]

theorem writes_kinds (l : List Call) :
    (l.filter Call.isWrite).map Call.kind =
      ((scopeCalls l).map Call.kind).filter Kind.isWrite := by
  induction l with
  | nil => rfl
  | cons c rest ih =>
    cases c <;> simp [scopeCalls, Call.isWrite, Call.kind, Kind.isWrite, List.filter_cons] <;>
      simpa [scopeCalls, Call.isWrite] using ih

theorem writes_scopeKinds (global : Bool) (envIds : List Int) :
    (scopeKinds global envIds).filter Kind.isWrite =
      (if global then [Kind.writeGlobal] else []) ++
        List.replicate envIds.length Kind.writeEnv := by
  have h : (envIds.flatMap (fun e => [Kind.fetchEnv e, Kind.writeEnv])).filter Kind.isWrite =
      List.replicate envIds.length Kind.writeEnv := by
    induction envIds with
    | nil => rfl
    | cons e es ih =>
      simp only [List.flatMap_cons, List.filter_append, ih, List.length_cons,
        List.replicate_succ]
      rfl
  cases global <;> simp [scopeKinds, h, List.filter_cons, Kind.isWrite]

theorem patchAll_calls {P : Type} (jp : JsonPatch P) (patch : P) :
    ∀ (rows : List (Int × String)) (m : GoMap) (calls : List Call),
      ∃ new, (patchAll jp patch rows m calls).2.2 = calls ++ new ∧
        (∀ c ∈ new, c.kind = Kind.apply) ∧ Ends (patchAll jp patch rows m calls).1 new := by
  intro rows
  induction rows with
  | nil =>
    intro m calls
    exact ⟨[], by simp [patchAll], by simp, Clean.nil⟩
  | cons r rest ih =>
    intro m calls
    obtain ⟨id, values⟩ := r
    cases hv : jp.Apply patch values with
    | error err =>
      refine ⟨[Call.Apply values (Except.error err)], ?_, ?_, ?_⟩
      · simp [patchAll, ApplyJsonPatch, hv]
      · simp [Call.kind]
      · simp only [patchAll, ApplyJsonPatch, hv]
        exact Ends.last [] Clean.nil rfl
    | ok v =>
      obtain ⟨new, h1, h2, h3⟩ := ih (m.set id v) (calls ++ [Call.Apply values (Except.ok v)])
      refine ⟨Call.Apply values (Except.ok v) :: new, ?_, ?_, ?_⟩
      · simp only [patchAll, ApplyJsonPatch, hv]
        rw [h1]
        simp
      · intro c hc
        rcases List.mem_cons.1 hc with rfl | hc
        · rfl
        · exact h2 c hc
      · simp only [patchAll, ApplyJsonPatch, hv]
        exact Ends.prepend (a := [Call.Apply values (Except.ok v)]) (Clean.single rfl) h3

/-! ## Lemmas on the scopes of `BulkUpdateDeploymentTemplate` -/

theorem envScopes_append {σ P : Type} (repo : BulkUpdateRepository σ) (jp : JsonPatch P)
    (patch : P) (inc exc : List String) :
    ∀ (done rest : List Int) (m : GoMap) (w : World σ),
      envScopes repo jp patch inc exc (done ++ rest) m w =
        match envScopes repo jp patch inc exc done m w with
        | (some e, m1, w1) => (some e, m1, w1)
        | (none, m1, w1) => envScopes repo jp patch inc exc rest m1 w1 := by
  intro done
  induction done with
  | nil => intro rest m w; simp [envScopes]
  | cons e es ih =>
    intro rest m w
    simp only [List.cons_append, envScopes]
    rcases h : envScope repo jp patch inc exc e m w with ⟨_ | err, m1, w1⟩
    · simp only [List.append_eq, ih]
    · simp

theorem updateScopes_append {σ P : Type} (repo : BulkUpdateRepository σ) (jp : JsonPatch P)
    (patch : P) (payload : BulkUpdatePayload) (w : World σ) (done rest : List Int)
    (h : payload.EnvIds = done ++ rest) :
    updateScopes repo jp patch payload w =
      match updateScopes repo jp patch { payload with EnvIds := done } w with
      | (some e, m1, w1) => (some e, m1, w1)
      | (none, m1, w1) =>
        envScopes repo jp patch payload.Includes.Names payload.Excludes.Names rest m1 w1 := by
  simp only [updateScopes, h]
  split
  · rfl
  · rw [envScopes_append]

theorem update_success_inv {σ P : Type} (repo : BulkUpdateRepository σ) (jp : JsonPatch P)
    (payload : BulkUpdatePayload) (w w1 : World σ) (patch : P) (s : String)
    (hdec : jp.DecodePatch payload.DeploymentTemplate.Spec.PatchJson = Except.ok patch)
    (h : BulkUpdateDeploymentTemplate repo jp payload w = ((s, none), w1)) :
    ∃ m, updateScopes repo jp patch payload w = (none, m, w1) := by
  simp only [BulkUpdateDeploymentTemplate, hdec] at h
  rcases hu : updateScopes repo jp patch payload w with ⟨_ | err, m, w2⟩
  · rw [hu] at h
    simp only [Prod.mk.injEq] at h
    exact ⟨m, by rw [h.2]⟩
  · rw [hu] at h
    simp at h

theorem update_of_scopes {σ P : Type} (repo : BulkUpdateRepository σ) (jp : JsonPatch P)
    (payload : BulkUpdatePayload) (w w1 : World σ) (patch : P) (c : Err) (m : GoMap)
    (hdec : jp.DecodePatch payload.DeploymentTemplate.Spec.PatchJson = Except.ok patch)
    (h : updateScopes repo jp patch payload w = (some c, m, w1)) :
    BulkUpdateDeploymentTemplate repo jp payload w = (("Bulk Update Failed", some c), w1) := by
  simp [BulkUpdateDeploymentTemplate, hdec, h]

theorem applyCalls_map {P α : Type} (jp : JsonPatch P) (patch : P) (id : α → Int)
    (values : α → String) (rows : List α) :
    applyCalls jp patch (rows.map (fun x => (id x, values x))) =
      rows.map (fun x => Call.Apply (values x) (jp.Apply patch (values x))) := by
  simp [applyCalls, List.map_map, Function.comp_def]

theorem globalScope_apply_fail {σ P : Type} (repo : BulkUpdateRepository σ)
    (jp : JsonPatch P) (patch : P) (inc exc : List String) (m : GoMap) (w : World σ)
    (db1 : σ) (rs1 : List Chart) (r : Chart) (rs2 : List Chart) (c : Err)
    (hfetch : repo.FindBulkChartsByAppNameSubstring inc exc w.db
      = (Except.ok (rs1 ++ r :: rs2), db1))
    (hok : ∀ x ∈ rs1, ∃ v, jp.Apply patch x.Values = Except.ok v)
    (hr : jp.Apply patch r.Values = Except.error c) :
    ∃ m', globalScope repo jp patch inc exc m w =
      (some c, m', ⟨db1, w.calls ++
        Call.FindBulkChartsByAppNameSubstring inc exc (Except.ok (rs1 ++ r :: rs2)) ::
          (rs1 ++ [r]).map (fun x => Call.Apply x.Values (jp.Apply patch x.Values))⟩) := by
  obtain ⟨m', hm'⟩ := patchAll_fail jp patch c (rs1.map (fun x => (x.Id, x.Values)))
    (r.Id, r.Values) (rs2.map (fun x => (x.Id, x.Values))) m
    (w.calls ++ [Call.FindBulkChartsByAppNameSubstring inc exc (Except.ok (rs1 ++ r :: rs2))])
    (by
      intro x hx
      obtain ⟨y, hy, rfl⟩ := List.mem_map.1 hx
      exact hok y hy)
    hr
  refine ⟨m', ?_⟩
  simp only [globalScope, hfetch, List.map_append, List.map_cons]
  rw [hm']
  simp [applyCalls]

theorem envScope_apply_fail {σ P : Type} (repo : BulkUpdateRepository σ)
    (jp : JsonPatch P) (patch : P) (inc exc : List String) (e : Int) (m : GoMap)
    (w : World σ) (db1 : σ) (rs1 : List EnvConfigOverride) (r : EnvConfigOverride)
    (rs2 : List EnvConfigOverride) (c : Err)
    (hfetch : repo.FindBulkChartsEnvByAppNameSubstring inc exc e w.db
      = (Except.ok (rs1 ++ r :: rs2), db1))
    (hok : ∀ x ∈ rs1, ∃ v, jp.Apply patch x.EnvOverrideValues = Except.ok v)
    (hr : jp.Apply patch r.EnvOverrideValues = Except.error c) :
    ∃ m', envScope repo jp patch inc exc e m w =
      (some c, m', ⟨db1, w.calls ++
        Call.FindBulkChartsEnvByAppNameSubstring inc exc e (Except.ok (rs1 ++ r :: rs2)) ::
          (rs1 ++ [r]).map
            (fun x => Call.Apply x.EnvOverrideValues (jp.Apply patch x.EnvOverrideValues))⟩) := by
  obtain ⟨m', hm'⟩ := patchAll_fail jp patch c
    (rs1.map (fun x => (x.Id, x.EnvOverrideValues)))
    (r.Id, r.EnvOverrideValues) (rs2.map (fun x => (x.Id, x.EnvOverrideValues))) m
    (w.calls ++
      [Call.FindBulkChartsEnvByAppNameSubstring inc exc e (Except.ok (rs1 ++ r :: rs2))])
    (by
      intro x hx
      obtain ⟨y, hy, rfl⟩ := List.mem_map.1 hx
      exact hok y hy)
    hr
  refine ⟨m', ?_⟩
  simp only [envScope, hfetch, List.map_append, List.map_cons]
  rw [hm']
  simp [applyCalls]

theorem envScope_calls {σ P : Type} (repo : BulkUpdateRepository σ) (jp : JsonPatch P)
    (patch : P) (inc exc : List String) (e : Int) (m : GoMap) (w : World σ) :
    ∃ new, (envScope repo jp patch inc exc e m w).2.2.calls = w.calls ++ new ∧
      Ends (envScope repo jp patch inc exc e m w).1 new ∧
      ((envScope repo jp patch inc exc e m w).1 = none →
        (scopeCalls new).map Call.kind = [Kind.fetchEnv e, Kind.writeEnv]) := by
  rcases hf : repo.FindBulkChartsEnvByAppNameSubstring inc exc e w.db with ⟨err | rows, db⟩
  · refine ⟨[Call.FindBulkChartsEnvByAppNameSubstring inc exc e (Except.error err)], ?_, ?_, ?_⟩
    · simp [envScope, hf]
    · simp only [envScope, hf]
      exact Ends.last [] Clean.nil rfl
    · simp [envScope, hf]
  · obtain ⟨newp, h1, h2, h3⟩ := patchAll_calls jp patch
      (rows.map (fun chartEnv => (chartEnv.Id, chartEnv.EnvOverrideValues))) m
      (w.calls ++ [Call.FindBulkChartsEnvByAppNameSubstring inc exc e (Except.ok rows)])
    rcases hp : patchAll jp patch
      (rows.map (fun chartEnv => (chartEnv.Id, chartEnv.EnvOverrideValues))) m
      (w.calls ++ [Call.FindBulkChartsEnvByAppNameSubstring inc exc e (Except.ok rows)])
      with ⟨_ | perr, m', calls'⟩
    · rw [hp] at h1 h3
      simp only at h1 h3
      rcases hw : repo.BulkUpdateChartsEnvYamlOverrideById m' db with ⟨_ | werr, db'⟩
      · refine ⟨Call.FindBulkChartsEnvByAppNameSubstring inc exc e (Except.ok rows) ::
          (newp ++ [Call.BulkUpdateChartsEnvYamlOverrideById m' none]), ?_, ?_, ?_⟩
        · simp [envScope, hf, hp, hw, h1]
        · simp only [envScope, hf, hp, hw]
          exact Clean.append (a := [_]) (Clean.single rfl)
            (Clean.append h3 (Clean.single rfl))
        · intro _
          have hs := scopeCalls_applies newp h2
          rw [show Call.FindBulkChartsEnvByAppNameSubstring inc exc e (Except.ok rows) ::
              (newp ++ [Call.BulkUpdateChartsEnvYamlOverrideById m' none]) =
            [Call.FindBulkChartsEnvByAppNameSubstring inc exc e (Except.ok rows)] ++
              (newp ++ [Call.BulkUpdateChartsEnvYamlOverrideById m' none]) from rfl,
            scopeCalls_append, scopeCalls_append, hs]
          simp [scopeCalls, Call.kind]
      · refine ⟨Call.FindBulkChartsEnvByAppNameSubstring inc exc e (Except.ok rows) ::
          (newp ++ [Call.BulkUpdateChartsEnvYamlOverrideById m' (some werr)]), ?_, ?_, ?_⟩
        · simp [envScope, hf, hp, hw, h1]
        · simp only [envScope, hf, hp, hw]
          rw [← List.cons_append]
          exact Ends.last _ (Clean.append (a := [_]) (Clean.single rfl) h3) rfl
        · simp [envScope, hf, hp, hw]
    · rw [hp] at h1 h3
      simp only at h1 h3
      refine ⟨Call.FindBulkChartsEnvByAppNameSubstring inc exc e (Except.ok rows) :: newp,
        ?_, ?_, ?_⟩
      · simp [envScope, hf, hp, h1]
      · simp only [envScope, hf, hp]
        exact Ends.prepend (a := [_]) (Clean.single rfl) h3
      · simp [envScope, hf, hp]

theorem globalScope_calls {σ P : Type} (repo : BulkUpdateRepository σ) (jp : JsonPatch P)
    (patch : P) (inc exc : List String) (m : GoMap) (w : World σ) :
    ∃ new, (globalScope repo jp patch inc exc m w).2.2.calls = w.calls ++ new ∧
      Ends (globalScope repo jp patch inc exc m w).1 new ∧
      ((globalScope repo jp patch inc exc m w).1 = none →
        (scopeCalls new).map Call.kind = [Kind.fetchGlobal, Kind.writeGlobal]) := by
  rcases hf : repo.FindBulkChartsByAppNameSubstring inc exc w.db with ⟨err | rows, db⟩
  · refine ⟨[Call.FindBulkChartsByAppNameSubstring inc exc (Except.error err)], ?_, ?_, ?_⟩
    · simp [globalScope, hf]
    · simp only [globalScope, hf]
      exact Ends.last [] Clean.nil rfl
    · simp [globalScope, hf]
  · obtain ⟨newp, h1, h2, h3⟩ := patchAll_calls jp patch
      (rows.map (fun chart => (chart.Id, chart.Values))) m
      (w.calls ++ [Call.FindBulkChartsByAppNameSubstring inc exc (Except.ok rows)])
    rcases hp : patchAll jp patch
      (rows.map (fun chart => (chart.Id, chart.Values))) m
      (w.calls ++ [Call.FindBulkChartsByAppNameSubstring inc exc (Except.ok rows)])
      with ⟨_ | perr, m', calls'⟩
    · rw [hp] at h1 h3
      simp only at h1 h3
      rcases hw : repo.BulkUpdateChartsValuesYamlAndGlobalOverrideById m' db
        with ⟨_ | werr, db'⟩
      · refine ⟨Call.FindBulkChartsByAppNameSubstring inc exc (Except.ok rows) ::
          (newp ++ [Call.BulkUpdateChartsValuesYamlAndGlobalOverrideById m' none]), ?_, ?_, ?_⟩
        · simp [globalScope, hf, hp, hw, h1]
        · simp only [globalScope, hf, hp, hw]
          exact Clean.append (a := [_]) (Clean.single rfl)
            (Clean.append h3 (Clean.single rfl))
        · intro _
          have hs := scopeCalls_applies newp h2
          rw [show Call.FindBulkChartsByAppNameSubstring inc exc (Except.ok rows) ::
              (newp ++ [Call.BulkUpdateChartsValuesYamlAndGlobalOverrideById m' none]) =
            [Call.FindBulkChartsByAppNameSubstring inc exc (Except.ok rows)] ++
              (newp ++ [Call.BulkUpdateChartsValuesYamlAndGlobalOverrideById m' none]) from rfl,
            scopeCalls_append, scopeCalls_append, hs]
          simp [scopeCalls, Call.kind]
      · refine ⟨Call.FindBulkChartsByAppNameSubstring inc exc (Except.ok rows) ::
          (newp ++ [Call.BulkUpdateChartsValuesYamlAndGlobalOverrideById m' (some werr)]),
          ?_, ?_, ?_⟩
        · simp [globalScope, hf, hp, hw, h1]
        · simp only [globalScope, hf, hp, hw]
          rw [← List.cons_append]
          exact Ends.last _ (Clean.append (a := [_]) (Clean.single rfl) h3) rfl
        · simp [globalScope, hf, hp, hw]
    · rw [hp] at h1 h3
      simp only at h1 h3
      refine ⟨Call.FindBulkChartsByAppNameSubstring inc exc (Except.ok rows) :: newp,
        ?_, ?_, ?_⟩
      · simp [globalScope, hf, hp, h1]
      · simp only [globalScope, hf, hp]
        exact Ends.prepend (a := [_]) (Clean.single rfl) h3
      · simp [globalScope, hf, hp]

theorem envScopes_calls {σ P : Type} (repo : BulkUpdateRepository σ) (jp : JsonPatch P)
    (patch : P) (inc exc : List String) :
    ∀ (envIds : List Int) (m : GoMap) (w : World σ),
      ∃ new, (envScopes repo jp patch inc exc envIds m w).2.2.calls = w.calls ++ new ∧
        Ends (envScopes repo jp patch inc exc envIds m w).1 new ∧
        ((envScopes repo jp patch inc exc envIds m w).1 = none →
          (scopeCalls new).map Call.kind =
            envIds.flatMap (fun e => [Kind.fetchEnv e, Kind.writeEnv])) := by
  intro envIds
  induction envIds with
  | nil =>
    intro m w
    exact ⟨[], by simp [envScopes], Clean.nil, fun _ => rfl⟩
  | cons e es ih =>
    intro m w
    obtain ⟨new1, h1, h2, h3⟩ := envScope_calls repo jp patch inc exc e m w
    rcases hs : envScope repo jp patch inc exc e m w with ⟨_ | err, m1, w1⟩
    · rw [hs] at h1 h2 h3
      simp only at h1 h2 h3
      obtain ⟨new2, g1, g2, g3⟩ := ih m1 w1
      refine ⟨new1 ++ new2, ?_, ?_, ?_⟩
      · simp only [envScopes, hs]
        rw [g1, h1, List.append_assoc]
      · simp only [envScopes, hs]
        exact Ends.prepend h2 g2
      · simp only [envScopes, hs]
        intro hnone
        rw [scopeCalls_append, List.map_append, h3 trivial, g3 hnone]
        rfl
    · rw [hs] at h1 h2 h3
      simp only at h1 h2 h3
      refine ⟨new1, ?_, ?_, ?_⟩
      · simp only [envScopes, hs]
        exact h1
      · simp only [envScopes, hs]
        exact h2
      · simp [envScopes, hs]

theorem updateScopes_calls {σ P : Type} (repo : BulkUpdateRepository σ) (jp : JsonPatch P)
    (patch : P) (payload : BulkUpdatePayload) (w : World σ) :
    ∃ new, (updateScopes repo jp patch payload w).2.2.calls = w.calls ++ new ∧
      Ends (updateScopes repo jp patch payload w).1 new ∧
      ((updateScopes repo jp patch payload w).1 = none →
        (scopeCalls new).map Call.kind = scopeKinds payload.Global payload.EnvIds) := by
  cases hg : payload.Global with
  | false =>
    obtain ⟨new, h1, h2, h3⟩ := envScopes_calls repo jp patch payload.Includes.Names
      payload.Excludes.Names payload.EnvIds GoMap.empty w
    refine ⟨new, ?_, ?_, ?_⟩
    · simpa [updateScopes, hg] using h1
    · simpa [updateScopes, hg] using h2
    · simpa [updateScopes, hg, scopeKinds] using h3
  | true =>
    obtain ⟨new1, h1, h2, h3⟩ := globalScope_calls repo jp patch payload.Includes.Names
      payload.Excludes.Names GoMap.empty w
    rcases hs : globalScope repo jp patch payload.Includes.Names
      payload.Excludes.Names GoMap.empty w with ⟨_ | err, m1, w1⟩
    · rw [hs] at h1 h2 h3
      simp only at h1 h2 h3
      obtain ⟨new2, g1, g2, g3⟩ := envScopes_calls repo jp patch payload.Includes.Names
        payload.Excludes.Names payload.EnvIds m1 w1
      refine ⟨new1 ++ new2, ?_, ?_, ?_⟩
      · simp only [updateScopes, hg, if_true, hs]
        rw [g1, h1, List.append_assoc]
      · simp only [updateScopes, hg, if_true, hs]
        exact Ends.prepend h2 g2
      · simp only [updateScopes, hg, if_true, hs]
        intro hnone
        rw [scopeCalls_append, List.map_append, h3 trivial, g3 hnone]
        rfl
    · rw [hs] at h1 h2 h3
      simp only at h1 h2 h3
      refine ⟨new1, ?_, ?_, ?_⟩
      · simp only [updateScopes, hg, if_true, hs]
        exact h1
      · simp only [updateScopes, hg, if_true, hs]
        exact h2
      · simp [updateScopes, hg, hs]

theorem update_eq {σ P : Type} (repo : BulkUpdateRepository σ) (jp : JsonPatch P)
    (payload : BulkUpdatePayload) (w : World σ) (patch : P)
    (hdec : jp.DecodePatch payload.DeploymentTemplate.Spec.PatchJson = Except.ok patch) :
    BulkUpdateDeploymentTemplate repo jp payload w =
      match updateScopes repo jp patch payload w with
      | (some e, _, w2) => (("Bulk Update Failed", some e), w2)
      | (none, _, w2) => (("Bulk Update is successful", none), w2) := by
  simp only [BulkUpdateDeploymentTemplate, hdec]

theorem globalScope_ok {σ P : Type} (repo : BulkUpdateRepository σ) (jp : JsonPatch P)
    (patch : P) (inc exc : List String) (m : GoMap) (w : World σ) (charts : List Chart)
    (db1 db2 : σ) (vs : List String)
    (hfetch : repo.FindBulkChartsByAppNameSubstring inc exc w.db = (Except.ok charts, db1))
    (hvs : List.Forall₂ (fun r v => jp.Apply patch r.Values = Except.ok v) charts vs)
    (hwrite : repo.BulkUpdateChartsValuesYamlAndGlobalOverrideById
      (m.assign ((charts.map Chart.Id).zip vs)) db1 = (none, db2)) :
    globalScope repo jp patch inc exc m w =
      (none, m.assign ((charts.map Chart.Id).zip vs),
        ⟨db2, w.calls ++
          Call.FindBulkChartsByAppNameSubstring inc exc (Except.ok charts) ::
            (charts.map (fun x => Call.Apply x.Values (jp.Apply patch x.Values)) ++
              [Call.BulkUpdateChartsValuesYamlAndGlobalOverrideById
                (m.assign ((charts.map Chart.Id).zip vs)) none])⟩) := by
  have hp := patchAll_ok jp patch (charts.map (fun chart => (chart.Id, chart.Values))) vs m
    (w.calls ++ [Call.FindBulkChartsByAppNameSubstring inc exc (Except.ok charts)])
    (by rw [List.forall₂_map_left_iff]; exact hvs)
  have hk : (charts.map (fun chart => (chart.Id, chart.Values))).map Prod.fst
      = charts.map Chart.Id := by
    simp [List.map_map, Function.comp_def]
  rw [hk, applyCalls_map jp patch Chart.Id Chart.Values charts] at hp
  simp only [globalScope, hfetch, hp, hwrite]
  simp

theorem update_decode_error {σ P : Type} (repo : BulkUpdateRepository σ) (jp : JsonPatch P)
    (payload : BulkUpdatePayload) (w : World σ) (d : Err)
    (h : jp.DecodePatch payload.DeploymentTemplate.Spec.PatchJson = Except.error d) :
    BulkUpdateDeploymentTemplate repo jp payload w = (("Bulk Update Failed", some d), w) := by
  simp [BulkUpdateDeploymentTemplate, h]

/-! ## Lemmas on the result of `GetBulkAppName` -/

theorem envPasses_append {σ : Type} (repo : BulkUpdateRepository σ) (inc exc : List String) :
    ∀ (done rest : List Int) (track : GoMap) (out : List ImpactedObjectsResponse)
      (w : World σ),
      envPasses repo inc exc (done ++ rest) track out w =
        match envPasses repo inc exc done track out w with
        | (some e, t1, o1, w1) => (some e, t1, o1, w1)
        | (none, t1, o1, w1) => envPasses repo inc exc rest t1 o1 w1 := by
  intro done
  induction done with
  | nil => intro rest track out w; simp [envPasses]
  | cons e es ih =>
    intro rest track out w
    simp only [List.cons_append, envPasses]
    rcases h : envPass repo inc exc e track out w with ⟨_ | err, t1, o1, w1⟩
    · simp only [List.append_eq, ih]
    · simp

theorem resolvePasses_append {σ : Type} (repo : BulkUpdateRepository σ)
    (payload : BulkUpdatePayload) (w : World σ) (done rest : List Int)
    (h : payload.EnvIds = done ++ rest) :
    resolvePasses repo payload w =
      match resolvePasses repo { payload with EnvIds := done } w with
      | (some e, t1, o1, w1) => (some e, t1, o1, w1)
      | (none, t1, o1, w1) =>
        envPasses repo payload.Includes.Names payload.Excludes.Names rest t1 o1 w1 := by
  simp only [resolvePasses, h]
  split
  · rfl
  · rw [envPasses_append]

theorem resolve_success_inv {σ : Type} (repo : BulkUpdateRepository σ)
    (payload : BulkUpdatePayload) (w w1 : World σ) (out : List ImpactedObjectsResponse)
    (h : GetBulkAppName repo payload w = ((some out, none), w1)) :
    ∃ track, resolvePasses repo payload w = (none, track, out, w1) := by
  simp only [GetBulkAppName] at h
  rcases hu : resolvePasses repo payload w with ⟨_ | err, track, o, w2⟩
  · rw [hu] at h
    simp only [Prod.mk.injEq, Option.some.injEq, and_true] at h
    exact ⟨track, by rw [h.1, h.2]⟩
  · rw [hu] at h
    simp at h

theorem resolve_of_passes_error {σ : Type} (repo : BulkUpdateRepository σ)
    (payload : BulkUpdatePayload) (w w1 : World σ) (f : Err) (track : GoMap)
    (out : List ImpactedObjectsResponse)
    (h : resolvePasses repo payload w = (some f, track, out, w1)) :
    GetBulkAppName repo payload w = ((none, some f), w1) := by
  simp [GetBulkAppName, h]

theorem envPass_tracked {σ : Type} (repo : BulkUpdateRepository σ) (inc exc : List String)
    (e : Int) (track : GoMap) (out : List ImpactedObjectsResponse) (w : World σ)
    (h : Tracked track out) :
    Tracked (envPass repo inc exc e track out w).2.1 (envPass repo inc exc e track out w).2.2.1 ∧
      ∃ ext, (envPass repo inc exc e track out w).2.2.1 = out ++ ext := by
  rcases hf : repo.FindBulkAppNameForEnv inc exc e w.db with ⟨err | L, db⟩
  · simp only [envPass, hf]
    exact ⟨h, [], by simp⟩
  · simp only [envPass, hf]
    exact ⟨(trackApps_spec e L track out h).2, _, (trackApps_spec e L track out h).1⟩

theorem envPasses_tracked {σ : Type} (repo : BulkUpdateRepository σ) (inc exc : List String) :
    ∀ (envIds : List Int) (track : GoMap) (out : List ImpactedObjectsResponse) (w : World σ),
      Tracked track out →
      Tracked (envPasses repo inc exc envIds track out w).2.1
          (envPasses repo inc exc envIds track out w).2.2.1 ∧
        ∃ ext, (envPasses repo inc exc envIds track out w).2.2.1 = out ++ ext := by
  intro envIds
  induction envIds with
  | nil =>
    intro track out w h
    simp only [envPasses]
    exact ⟨h, [], by simp⟩
  | cons e es ih =>
    intro track out w h
    obtain ⟨h1, ext1, h2⟩ := envPass_tracked repo inc exc e track out w h
    rcases hp : envPass repo inc exc e track out w with ⟨_ | err, t1, o1, w1⟩
    · rw [hp] at h1 h2
      simp only at h1 h2
      obtain ⟨g1, ext2, g2⟩ := ih t1 o1 w1 h1
      simp only [envPasses, hp]
      exact ⟨g1, ext1 ++ ext2, by rw [g2, h2, List.append_assoc]⟩
    · rw [hp] at h1 h2
      simp only at h1 h2
      simp only [envPasses, hp]
      exact ⟨h1, ext1, h2⟩

theorem resolvePasses_tracked {σ : Type} (repo : BulkUpdateRepository σ)
    (payload : BulkUpdatePayload) (w : World σ) :
    Tracked (resolvePasses repo payload w).2.1 (resolvePasses repo payload w).2.2.1 := by
  cases hg : payload.Global with
  | false =>
    simp only [resolvePasses, hg]
    exact (envPasses_tracked repo _ _ payload.EnvIds GoMap.empty [] w Tracked.empty).1
  | true =>
    simp only [resolvePasses, hg, if_true]
    rcases hf : repo.FindBulkAppNameForGlobal payload.Includes.Names payload.Excludes.Names
      w.db with ⟨err | L, db⟩
    · simp only [globalPass, hf]
      exact Tracked.empty
    · simp only [globalPass, hf]
      exact (envPasses_tracked repo _ _ payload.EnvIds _ _ _
        (trackApps_spec 0 L GoMap.empty [] Tracked.empty).2).1

theorem filter_appId_of_nodup :
    ∀ (l : List ImpactedObjectsResponse) (x : ImpactedObjectsResponse),
      (l.map ImpactedObjectsResponse.AppId).Nodup → x ∈ l →
      l.filter (fun y => decide (y.AppId = x.AppId)) = [x]
  | [], _, _, h => by cases h
  | y :: ys, x, hnd, hx => by
    rw [List.map_cons, List.nodup_cons] at hnd
    rcases List.mem_cons.1 hx with rfl | hx
    · have hnil : ys.filter (fun y => decide (y.AppId = x.AppId)) = [] := by
        rw [List.filter_eq_nil_iff]
        intro z hz
        have : z.AppId ≠ x.AppId := fun heq => hnd.1 (heq ▸ List.mem_map_of_mem _ hz)
        simpa using this
      simp [List.filter_cons, hnil]
    · have hne : y.AppId ≠ x.AppId := fun heq => hnd.1 (heq ▸ List.mem_map_of_mem _ hx)
      rw [List.filter_cons_of_neg (by simpa using hne)]
      exact filter_appId_of_nodup ys x hnd.2 hx

theorem globalPass_ok {σ : Type} (repo : BulkUpdateRepository σ) (inc exc : List String)
    (w : World σ) (L : List App) (db1 : σ)
    (hfetch : repo.FindBulkAppNameForGlobal inc exc w.db = (Except.ok L, db1)) :
    ∃ track, Tracked track ((firstSeen [] L).map (entryOf 0)) ∧
      globalPass repo inc exc GoMap.empty [] w =
        (none, track, (firstSeen [] L).map (entryOf 0),
          ⟨db1, w.calls ++ [Call.FindBulkAppNameForGlobal inc exc (Except.ok L)]⟩) := by
  obtain ⟨h1, h2⟩ := trackApps_spec 0 L GoMap.empty [] Tracked.empty
  simp only [List.map_nil, List.nil_append] at h1
  rw [h1] at h2
  refine ⟨(trackApps 0 L GoMap.empty []).1, h2, ?_⟩
  simp only [globalPass, hfetch, h1]

/-! ## Claims on `GetBulkAppName` -/

/-- C9: with `global = true` and no environment id, when the global fetch returns `L`,
`GetBulkAppName` makes that one fetch and returns, without error, a list `out` that has
exactly one entry per distinct id of `L`: no two entries share an `AppId`, the `AppId`s
of `out` are the ids of `L`, each entry has no environment id and carries the name of the
first row of `L` with its id, and the entries are in the order of the first occurrences of
their ids in `L`. -/
theorem C9_global_pass_first_seen {σ : Type} (repo : BulkUpdateRepository σ)
    (payload : BulkUpdatePayload) (w : World σ) (hglobal : payload.Global = true)
    (hEnv : payload.EnvIds = []) (L : List App) (db1 : σ)
    (hfetch : repo.FindBulkAppNameForGlobal payload.Includes.Names payload.Excludes.Names
      w.db = (Except.ok L, db1)) :
    ∃ out, GetBulkAppName repo payload w =
        ((some out, none), ⟨db1, w.calls ++ [Call.FindBulkAppNameForGlobal
          payload.Includes.Names payload.Excludes.Names (Except.ok L)]⟩) ∧
      (out.map ImpactedObjectsResponse.AppId).Nodup ∧
      (∀ id, id ∈ out.map ImpactedObjectsResponse.AppId ↔ id ∈ L.map App.Id) ∧
      (∀ x ∈ out, x.EnvId = 0 ∧
        L.find? (fun a => decide (a.Id = x.AppId)) =
          some { Id := x.AppId, AppName := x.AppName }) ∧
      out.Pairwise (fun x y =>
        (L.map App.Id).indexOf x.AppId < (L.map App.Id).indexOf y.AppId) := by
  obtain ⟨track, _, hg⟩ := globalPass_ok repo payload.Includes.Names payload.Excludes.Names
    w L db1 hfetch
  refine ⟨(firstSeen [] L).map (entryOf 0), ?_, ?_, ?_, ?_, ?_⟩
  · simp only [GetBulkAppName, resolvePasses, hglobal, if_true, hg, hEnv, envPasses]
  · rw [entryOf_ids]
    exact firstSeen_nodup L []
  · intro id
    rw [entryOf_ids, firstSeen_mem_ids]
    simp
  · intro x hx
    obtain ⟨a, ha, rfl⟩ := List.mem_map.1 hx
    exact ⟨rfl, firstSeen_find a L [] ha⟩
  · rw [List.pairwise_map]
    exact firstSeen_order L []

/-- An instance of C9: the global fetch returns application `1`, application `2` and
application `1` again. -/
theorem C9_global_pass_first_seen_witness :
    ∃ out, GetBulkAppName appsUnreachable20.repo (selection true [] "") start =
        ((some out, none), ⟨1, start.calls ++ [Call.FindBulkAppNameForGlobal
          (selection true [] "").Includes.Names (selection true [] "").Excludes.Names
          (Except.ok [{ Id := 1, AppName := "app1" }, { Id := 2, AppName := "app2" },
            { Id := 1, AppName := "app1-again" }])]⟩) ∧
      (out.map ImpactedObjectsResponse.AppId).Nodup ∧
      (∀ id, id ∈ out.map ImpactedObjectsResponse.AppId ↔
        id ∈ ([{ Id := 1, AppName := "app1" }, { Id := 2, AppName := "app2" },
            { Id := 1, AppName := "app1-again" }] : List App).map App.Id) ∧
      (∀ x ∈ out, x.EnvId = 0 ∧
        ([{ Id := 1, AppName := "app1" }, { Id := 2, AppName := "app2" },
            { Id := 1, AppName := "app1-again" }] : List App).find?
            (fun a => decide (a.Id = x.AppId)) =
          some { Id := x.AppId, AppName := x.AppName }) ∧
      out.Pairwise (fun x y =>
        (([{ Id := 1, AppName := "app1" }, { Id := 2, AppName := "app2" },
            { Id := 1, AppName := "app1-again" }] : List App).map App.Id).indexOf x.AppId <
          (([{ Id := 1, AppName := "app1" }, { Id := 2, AppName := "app2" },
            { Id := 1, AppName := "app1-again" }] : List App).map App.Id).indexOf y.AppId) :=
  C9_global_pass_first_seen appsUnreachable20.repo (selection true [] "") start
    (by decide) (by decide) _ 1 (by decide)

/-- C8: when a fetch of `GetBulkAppName` fails with `f`, the function returns a `nil`
list together with `f`, and the failing fetch is its last call.  This holds for the
global fetch (first part) and for the fetch of an environment `e` reached after the
passes before it succeeded and produced the entries `out1` (second part), which are not
returned. -/
theorem C8_all_or_nothing {σ : Type} (repo : BulkUpdateRepository σ)
    (payload : BulkUpdatePayload) (w : World σ) :
    (∀ (f : Err) (db1 : σ),
      payload.Global = true →
      repo.FindBulkAppNameForGlobal payload.Includes.Names payload.Excludes.Names w.db
        = (Except.error f, db1) →
      GetBulkAppName repo payload w =
        ((none, some f), ⟨db1, w.calls ++ [Call.FindBulkAppNameForGlobal
          payload.Includes.Names payload.Excludes.Names (Except.error f)]⟩)) ∧
    (∀ (done : List Int) (e : Int) (rest : List Int) (out1 : List ImpactedObjectsResponse)
        (w1 : World σ) (f : Err) (db2 : σ),
      payload.EnvIds = done ++ e :: rest →
      GetBulkAppName repo { payload with EnvIds := done } w = ((some out1, none), w1) →
      repo.FindBulkAppNameForEnv payload.Includes.Names payload.Excludes.Names e w1.db
        = (Except.error f, db2) →
      GetBulkAppName repo payload w =
        ((none, some f), ⟨db2, w1.calls ++ [Call.FindBulkAppNameForEnv
          payload.Includes.Names payload.Excludes.Names e (Except.error f)]⟩)) := by
  constructor
  · intro f db1 hg hfetch
    apply resolve_of_passes_error repo payload w _ f GoMap.empty []
    simp only [resolvePasses, hg, if_true, globalPass, hfetch]
  · intro done e rest out1 w1 f db2 hEnv hdone hfetch
    obtain ⟨track, ht⟩ := resolve_success_inv repo { payload with EnvIds := done } w w1 out1
      hdone
    apply resolve_of_passes_error repo payload w _ f track out1
    rw [resolvePasses_append repo payload w done (e :: rest) hEnv, ht]
    simp only [envPasses, envPass, hfetch]

/-- An instance of C8: the global pass and the pass of environment `10` succeed, the fetch
for environment `20` fails, and environment `30` is never fetched. -/
theorem C8_all_or_nothing_witness :
    GetBulkAppName appsUnreachable20.repo (selection true [10, 20, 30] "") start =
      ((none, some "connection refused"),
        ⟨3, [Call.FindBulkAppNameForGlobal ["app1"] []
              (Except.ok [{ Id := 1, AppName := "app1" }, { Id := 2, AppName := "app2" },
                { Id := 1, AppName := "app1-again" }]),
            Call.FindBulkAppNameForEnv ["app1"] [] 10
              (Except.ok [{ Id := 1, AppName := "app1" }])] ++
          [Call.FindBulkAppNameForEnv ["app1"] [] 20 (Except.error "connection refused")]⟩) :=
  (C8_all_or_nothing appsUnreachable20.repo (selection true [10, 20, 30] "") start).2
    [10] 20 [30]
    [{ AppId := 1, AppName := "app1", EnvId := 0 }, { AppId := 2, AppName := "app2", EnvId := 0 }]
    ⟨2, [Call.FindBulkAppNameForGlobal ["app1"] []
          (Except.ok [{ Id := 1, AppName := "app1" }, { Id := 2, AppName := "app2" },
            { Id := 1, AppName := "app1-again" }]),
        Call.FindBulkAppNameForEnv ["app1"] [] 10
          (Except.ok [{ Id := 1, AppName := "app1" }])]⟩
    "connection refused" 3 (by decide) (by decide) (by decide)

/-- C1, as amended: the dedup of `GetBulkAppName` is over the whole call.  Without a
scope the result is empty; the global pass alone yields its fetch result deduplicated by
id, first seen first, without environment id; and the pass of an environment `e` that
follows the passes of `done`, whose entries are `out1`, appends to `out1` the fetch
result of `e` deduplicated by id and without the ids of `out1`, each entry with
environment id `e`.  In particular, with `global = true`, an id returned by the global
fetch has exactly one entry in the result, which has no environment id, whatever the
fetches of the environments return. -/
theorem C1_dedup_over_whole_call {σ : Type} (repo : BulkUpdateRepository σ)
    (payload : BulkUpdatePayload) (w : World σ) :
    (payload.Global = false → payload.EnvIds = [] →
      GetBulkAppName repo payload w = ((some [], none), w)) ∧
    (∀ (Lg : List App) (db1 : σ),
      payload.Global = true → payload.EnvIds = [] →
      repo.FindBulkAppNameForGlobal payload.Includes.Names payload.Excludes.Names w.db
        = (Except.ok Lg, db1) →
      GetBulkAppName repo payload w =
        ((some ((firstSeen [] Lg).map (entryOf 0)), none),
          ⟨db1, w.calls ++ [Call.FindBulkAppNameForGlobal payload.Includes.Names
            payload.Excludes.Names (Except.ok Lg)]⟩)) ∧
    (∀ (done : List Int) (e : Int) (out1 : List ImpactedObjectsResponse) (w1 : World σ)
        (Le : List App) (db2 : σ),
      payload.EnvIds = done ++ [e] →
      GetBulkAppName repo { payload with EnvIds := done } w = ((some out1, none), w1) →
      repo.FindBulkAppNameForEnv payload.Includes.Names payload.Excludes.Names e w1.db
        = (Except.ok Le, db2) →
      GetBulkAppName repo payload w =
        ((some (out1 ++
            (firstSeen (out1.map ImpactedObjectsResponse.AppId) Le).map (entryOf e)), none),
          ⟨db2, w1.calls ++ [Call.FindBulkAppNameForEnv payload.Includes.Names
            payload.Excludes.Names e (Except.ok Le)]⟩)) ∧
    (∀ (Lg : List App) (db1 : σ) (out : List ImpactedObjectsResponse) (w2 : World σ)
        (id : Int),
      payload.Global = true →
      repo.FindBulkAppNameForGlobal payload.Includes.Names payload.Excludes.Names w.db
        = (Except.ok Lg, db1) →
      GetBulkAppName repo payload w = ((some out, none), w2) →
      id ∈ Lg.map App.Id →
      ∃ name, out.filter (fun x => decide (x.AppId = id)) =
        [{ AppId := id, AppName := name, EnvId := 0 }]) := by
  refine ⟨?_, ?_, ?_, ?_⟩
  · intro hg hEnv
    simp [GetBulkAppName, resolvePasses, hg, hEnv, envPasses]
  · intro Lg db1 hg hEnv hfetch
    obtain ⟨track, _, hgp⟩ := globalPass_ok repo payload.Includes.Names
      payload.Excludes.Names w Lg db1 hfetch
    simp only [GetBulkAppName, resolvePasses, hg, if_true, hgp, hEnv, envPasses]
  · intro done e out1 w1 Le db2 hEnv hdone hfetch
    obtain ⟨track, ht⟩ := resolve_success_inv repo { payload with EnvIds := done } w w1 out1
      hdone
    have htr : Tracked track out1 := by
      have := resolvePasses_tracked repo { payload with EnvIds := done } w
      rw [ht] at this
      exact this
    obtain ⟨h1, _⟩ := trackApps_spec e Le track out1 htr
    simp only [GetBulkAppName]
    rw [resolvePasses_append repo payload w done [e] hEnv, ht]
    simp only [envPasses, envPass, hfetch, h1]
  · intro Lg db1 out w2 id hg hfetch hrun hid
    obtain ⟨track, ht⟩ := resolve_success_inv repo payload w w2 out hrun
    have htr : Tracked track out := by
      have := resolvePasses_tracked repo payload w
      rw [ht] at this
      exact this
    obtain ⟨t1, ht1, hgp⟩ := globalPass_ok repo payload.Includes.Names
      payload.Excludes.Names w Lg db1 hfetch
    simp only [resolvePasses, hg, if_true, hgp] at ht
    obtain ⟨_, ext, hext⟩ := envPasses_tracked repo payload.Includes.Names
      payload.Excludes.Names payload.EnvIds t1 ((firstSeen [] Lg).map (entryOf 0))
      ⟨db1, w.calls ++ [Call.FindBulkAppNameForGlobal payload.Includes.Names
        payload.Excludes.Names (Except.ok Lg)]⟩ ht1
    rw [ht] at hext
    simp only at hext
    have hmem : id ∈ (firstSeen [] Lg).map App.Id := by
      rw [firstSeen_mem_ids]
      exact ⟨hid, by simp⟩
    obtain ⟨a, ha, rfl⟩ := List.mem_map.1 hmem
    refine ⟨a.AppName, ?_⟩
    have hin : entryOf 0 a ∈ out := by
      rw [hext]
      exact List.mem_append_left _ (List.mem_map_of_mem _ ha)
    exact filter_appId_of_nodup out (entryOf 0 a) htr.2 hin

/-- An instance of C1 as amended: the global fetch and the fetch for environment `10`
both return application `1`. -/
theorem C1_dedup_over_whole_call_witness :
    GetBulkAppName healthy.repo (selection true [10] "") start =
      ((some ([{ AppId := 1, AppName := "app1", EnvId := 0 }] ++
          (firstSeen
            (([{ AppId := 1, AppName := "app1", EnvId := 0 }] :
              List ImpactedObjectsResponse).map ImpactedObjectsResponse.AppId)
            [{ Id := 1, AppName := "app1" }]).map (entryOf 10)), none),
        ⟨2, [Call.FindBulkAppNameForGlobal ["app1"] []
              (Except.ok [{ Id := 1, AppName := "app1" }])] ++
          [Call.FindBulkAppNameForEnv ["app1"] [] 10
            (Except.ok [{ Id := 1, AppName := "app1" }])]⟩) ∧
    ∃ name, List.filter (fun x => decide (x.AppId = 1))
        [({ AppId := 1, AppName := "app1", EnvId := 0 } : ImpactedObjectsResponse)] =
      [{ AppId := 1, AppName := name, EnvId := 0 }] :=
  ⟨(C1_dedup_over_whole_call healthy.repo (selection true [10] "") start).2.2.1
      [] 10 [{ AppId := 1, AppName := "app1", EnvId := 0 }]
      ⟨1, [Call.FindBulkAppNameForGlobal ["app1"] []
        (Except.ok [{ Id := 1, AppName := "app1" }])]⟩
      [{ Id := 1, AppName := "app1" }] 2 (by decide) (by decide) (by decide),
    (C1_dedup_over_whole_call healthy.repo (selection true [10] "") start).2.2.2
      [{ Id := 1, AppName := "app1" }] 1 [{ AppId := 1, AppName := "app1", EnvId := 0 }]
      ⟨2, [Call.FindBulkAppNameForGlobal ["app1"] []
          (Except.ok [{ Id := 1, AppName := "app1" }]),
        Call.FindBulkAppNameForEnv ["app1"] [] 10
          (Except.ok [{ Id := 1, AppName := "app1" }])]⟩
      1 (by decide) (by decide) (by decide) (by decide)⟩

/-- C1, as stated, fails: with `global = true` and `envIds = [10]`, the global fetch and
the fetch for environment `10` both returning application `1`, the result has one entry
for application `1`, the global one, and none with environment id `10`. -/
theorem C1_counterexample :
    healthy.repo.FindBulkAppNameForGlobal ["app1"] [] 0
      = (Except.ok [{ Id := 1, AppName := "app1" }], 1) ∧
    healthy.repo.FindBulkAppNameForEnv ["app1"] [] 10 1
      = (Except.ok [{ Id := 1, AppName := "app1" }], 2) ∧
    (GetBulkAppName healthy.repo (selection true [10] "") start).1
      = (some [{ AppId := 1, AppName := "app1", EnvId := 0 }], none) ∧
    ¬ ∃ out, (GetBulkAppName healthy.repo (selection true [10] "") start).1
        = (some out, none) ∧
      (out.filter (fun x => decide (x.AppId = 1))).length = 2 := by
  refine ⟨by decide, by decide, by decide, ?_⟩
  rintro ⟨out, h1, h2⟩
  have h3 : (GetBulkAppName healthy.repo (selection true [10] "") start).1
      = (some [{ AppId := 1, AppName := "app1", EnvId := 0 }], none) := by decide
  rw [h3] at h1
  simp only [Prod.mk.injEq, Option.some.injEq, and_true] at h1
  rw [← h1] at h2
  simp at h2

/-! ## Claims on `BulkUpdateDeploymentTemplate` -/

/-- C4: when `DecodePatch` fails with `d`, `BulkUpdateDeploymentTemplate` returns
`("Bulk Update Failed", d)` and leaves the store and the log of calls as they were: no
fetch, no patch application and no bulk write is made, whatever the selection. -/
theorem C4_decode_failure_is_terminal {σ P : Type} (repo : BulkUpdateRepository σ)
    (jp : JsonPatch P) (payload : BulkUpdatePayload) (w : World σ) (d : Err)
    (h : jp.DecodePatch payload.DeploymentTemplate.Spec.PatchJson = Except.error d) :
    BulkUpdateDeploymentTemplate repo jp payload w = (("Bulk Update Failed", some d), w) :=
  update_decode_error repo jp payload w d h

/-- An instance of C4: a text that is not a patch, with both kinds of scope selected. -/
theorem C4_decode_failure_is_terminal_witness :
    samplePatch.DecodePatch
        (selection true [10, 20] "not a patch").DeploymentTemplate.Spec.PatchJson
      = Except.error "invalid patch document" ∧
    BulkUpdateDeploymentTemplate healthy.repo samplePatch
        (selection true [10, 20] "not a patch") start
      = (("Bulk Update Failed", some "invalid patch document"), start) :=
  ⟨by decide, C4_decode_failure_is_terminal healthy.repo samplePatch
    (selection true [10, 20] "not a patch") start "invalid patch document" (by decide)⟩

/-- C3: when the patch decodes and its application to a fetched row fails with `c`,
`BulkUpdateDeploymentTemplate` returns `("Bulk Update Failed", c)` and stops there.  In the
global scope (first part) the calls made are the global fetch and the applications up to
the failing row.  In the scope of an environment `e` reached after the scopes before it
succeeded (second part) the calls made after those of the earlier scopes are the fetch of
`e` and the applications up to the failing row.  In both cases there is no bulk write for
the scope in progress, no application to a later row, and no call for a later scope. -/
theorem C3_patch_failure_aborts {σ P : Type} (repo : BulkUpdateRepository σ)
    (jp : JsonPatch P) (payload : BulkUpdatePayload) (w : World σ) (patch : P)
    (hdec : jp.DecodePatch payload.DeploymentTemplate.Spec.PatchJson = Except.ok patch) :
    (∀ (db1 : σ) (rs1 : List Chart) (r : Chart) (rs2 : List Chart) (c : Err),
      payload.Global = true →
      repo.FindBulkChartsByAppNameSubstring payload.Includes.Names payload.Excludes.Names
        w.db = (Except.ok (rs1 ++ r :: rs2), db1) →
      (∀ x ∈ rs1, ∃ v, jp.Apply patch x.Values = Except.ok v) →
      jp.Apply patch r.Values = Except.error c →
      BulkUpdateDeploymentTemplate repo jp payload w =
        (("Bulk Update Failed", some c),
          ⟨db1, w.calls ++
            Call.FindBulkChartsByAppNameSubstring payload.Includes.Names
                payload.Excludes.Names (Except.ok (rs1 ++ r :: rs2)) ::
              (rs1 ++ [r]).map (fun x => Call.Apply x.Values (jp.Apply patch x.Values))⟩)) ∧
    (∀ (done : List Int) (e : Int) (rest : List Int) (w1 : World σ) (db2 : σ)
        (rs1 : List EnvConfigOverride) (r : EnvConfigOverride) (rs2 : List EnvConfigOverride)
        (c : Err),
      payload.EnvIds = done ++ e :: rest →
      BulkUpdateDeploymentTemplate repo jp { payload with EnvIds := done } w =
        (("Bulk Update is successful", none), w1) →
      repo.FindBulkChartsEnvByAppNameSubstring payload.Includes.Names payload.Excludes.Names
        e w1.db = (Except.ok (rs1 ++ r :: rs2), db2) →
      (∀ x ∈ rs1, ∃ v, jp.Apply patch x.EnvOverrideValues = Except.ok v) →
      jp.Apply patch r.EnvOverrideValues = Except.error c →
      BulkUpdateDeploymentTemplate repo jp payload w =
        (("Bulk Update Failed", some c),
          ⟨db2, w1.calls ++
            Call.FindBulkChartsEnvByAppNameSubstring payload.Includes.Names
                payload.Excludes.Names e (Except.ok (rs1 ++ r :: rs2)) ::
              (rs1 ++ [r]).map (fun x =>
                Call.Apply x.EnvOverrideValues (jp.Apply patch x.EnvOverrideValues))⟩)) := by
  constructor
  · intro db1 rs1 r rs2 c hg hfetch hok hr
    obtain ⟨m', hm'⟩ := globalScope_apply_fail repo jp patch payload.Includes.Names
      payload.Excludes.Names GoMap.empty w db1 rs1 r rs2 c hfetch hok hr
    apply update_of_scopes repo jp payload w _ patch c m' hdec
    simp only [updateScopes, hg, if_true, hm']
  · intro done e rest w1 db2 rs1 r rs2 c hEnv hdone hfetch hok hr
    obtain ⟨m, hm⟩ := update_success_inv repo jp { payload with EnvIds := done } w w1 patch _
      hdec hdone
    obtain ⟨m', hm'⟩ := envScope_apply_fail repo jp patch payload.Includes.Names
      payload.Excludes.Names e m w1 db2 rs1 r rs2 c hfetch hok hr
    apply update_of_scopes repo jp payload w _ patch c m' hdec
    rw [updateScopes_append repo jp patch payload w done (e :: rest) hEnv, hm]
    simp only [envScopes, hm']

/-- An instance of C3: the global scope and environment `10` succeed, the second override
of environment `20` has no `/image`, and environment `30` is never reached. -/
theorem C3_patch_failure_aborts_witness :
    BulkUpdateDeploymentTemplate unpatchable20.repo samplePatch
        (selection true [10, 20, 30] replaceImageText) start =
      (("Bulk Update Failed",
          some "replace operation does not apply: doc is missing path: /image"),
        ⟨5, (BulkUpdateDeploymentTemplate unpatchable20.repo samplePatch
              (selection true [10] replaceImageText) start).2.calls ++
          [Call.FindBulkChartsEnvByAppNameSubstring ["app1"] [] 20
              (Except.ok [{ Id := 21, EnvOverrideValues := imageDoc "v1" },
                { Id := 22, EnvOverrideValues := "\x7b\"other\":\"x\"\x7d" },
                { Id := 23, EnvOverrideValues := imageDoc "v1" }]),
            Call.Apply (imageDoc "v1") (Except.ok (imageDoc "v2")),
            Call.Apply "\x7b\"other\":\"x\"\x7d"
              (Except.error "replace operation does not apply: doc is missing path: /image")]⟩) :=
  (C3_patch_failure_aborts unpatchable20.repo samplePatch
      (selection true [10, 20, 30] replaceImageText) start "v2" (by decide)).2
    [10] 20 [30]
    (BulkUpdateDeploymentTemplate unpatchable20.repo samplePatch
      (selection true [10] replaceImageText) start).2
    5 [{ Id := 21, EnvOverrideValues := imageDoc "v1" }]
    { Id := 22, EnvOverrideValues := "\x7b\"other\":\"x\"\x7d" }
    [{ Id := 23, EnvOverrideValues := imageDoc "v1" }]
    "replace operation does not apply: doc is missing path: /image"
    (by decide) (by decide) (by decide)
    (by
      intro x hx
      rw [List.mem_singleton] at hx
      subst hx
      exact ⟨imageDoc "v2", by decide⟩)
    (by decide)

/-- C5: with `global = false` and `envIds = done ++ e :: rest`, when the patch decodes,
the run over the environments `done` succeeds and the fetch for `e` then fails with `f`,
`BulkUpdateDeploymentTemplate` returns `("Bulk Update Failed", f)`; the calls it made are
those of the run over `done` followed by the failing fetch alone; and the fetches and
bulk writes of the run over `done` are, for each environment of `done` in order, its fetch
followed by one environment write, so that the bulk writes made are exactly one
environment write per environment of `done` and none for `e` or a later environment. -/
theorem C5_later_fetch_failure_keeps_earlier_writes {σ P : Type}
    (repo : BulkUpdateRepository σ) (jp : JsonPatch P) (payload : BulkUpdatePayload)
    (w : World σ) (patch : P)
    (hdec : jp.DecodePatch payload.DeploymentTemplate.Spec.PatchJson = Except.ok patch)
    (hglobal : payload.Global = false) (done : List Int) (e : Int) (rest : List Int)
    (hEnv : payload.EnvIds = done ++ e :: rest) (w1 : World σ)
    (hdone : BulkUpdateDeploymentTemplate repo jp { payload with EnvIds := done } w =
      (("Bulk Update is successful", none), w1))
    (f : Err) (db2 : σ)
    (hfetch : repo.FindBulkChartsEnvByAppNameSubstring payload.Includes.Names
      payload.Excludes.Names e w1.db = (Except.error f, db2)) :
    BulkUpdateDeploymentTemplate repo jp payload w =
      (("Bulk Update Failed", some f),
        ⟨db2, w1.calls ++ [Call.FindBulkChartsEnvByAppNameSubstring payload.Includes.Names
          payload.Excludes.Names e (Except.error f)]⟩) ∧
    ∃ new, w1.calls = w.calls ++ new ∧ Clean new ∧
      (scopeCalls new).map Call.kind =
        done.flatMap (fun x => [Kind.fetchEnv x, Kind.writeEnv]) ∧
      ((new ++ [Call.FindBulkChartsEnvByAppNameSubstring payload.Includes.Names
          payload.Excludes.Names e (Except.error f)]).filter Call.isWrite).map Call.kind =
        List.replicate done.length Kind.writeEnv := by
  obtain ⟨m, hm⟩ := update_success_inv repo jp { payload with EnvIds := done } w w1 patch _
    hdec hdone
  constructor
  · apply update_of_scopes repo jp payload w _ patch f m hdec
    rw [updateScopes_append repo jp patch payload w done (e :: rest) hEnv, hm]
    simp only [envScopes, envScope, hfetch]
  · obtain ⟨new, h1, h2, h3⟩ := updateScopes_calls repo jp patch
      { payload with EnvIds := done } w
    rw [hm] at h1 h2 h3
    simp only at h1 h2 h3
    have hk := h3 trivial
    simp only [hglobal] at hk
    refine ⟨new, h1, h2, ?_, ?_⟩
    · simpa [scopeKinds] using hk
    · rw [writes_kinds, scopeCalls_append, List.map_append, hk]
      have hw := writes_scopeKinds false done
      simp only [List.filter_append, hw]
      simp [scopeCalls, Call.kind, Kind.isWrite]

/-- An instance of C5: `envIds = [10, 20]`, environment `10` is written and the fetch for
environment `20` fails. -/
theorem C5_later_fetch_failure_keeps_earlier_writes_witness :
    BulkUpdateDeploymentTemplate unreachable20.repo samplePatch
        (selection false [10, 20] replaceImageText) start =
      (("Bulk Update Failed", some "connection refused"),
        ⟨3, [Call.FindBulkChartsEnvByAppNameSubstring ["app1"] [] 10
              (Except.ok [{ Id := 11, EnvOverrideValues := imageDoc "v1" }]),
            Call.Apply (imageDoc "v1") (Except.ok (imageDoc "v2")),
            Call.BulkUpdateChartsEnvYamlOverrideById [(11, imageDoc "v2")] none] ++
          [Call.FindBulkChartsEnvByAppNameSubstring ["app1"] [] 20
            (Except.error "connection refused")]⟩) :=
  (C5_later_fetch_failure_keeps_earlier_writes unreachable20.repo samplePatch
    (selection false [10, 20] replaceImageText) start "v2" (by decide) (by decide)
    [10] 20 [] (by decide)
    ⟨2, [Call.FindBulkChartsEnvByAppNameSubstring ["app1"] [] 10
          (Except.ok [{ Id := 11, EnvOverrideValues := imageDoc "v1" }]),
        Call.Apply (imageDoc "v1") (Except.ok (imageDoc "v2")),
        Call.BulkUpdateChartsEnvYamlOverrideById [(11, imageDoc "v2")] none]⟩
    (by decide) "connection refused" 3 (by decide)).1

/-- C6: when a bulk write made by `BulkUpdateDeploymentTemplate` (global or for an
environment) returns the error `werr`, the function returns
`("Bulk Update Failed", werr)`, that write is the last call of the run (no fetch, patch
application or write follows it, so no later scope is touched and no compensating call
is issued), every call before it succeeded, and it occurs exactly once among the calls
of the run. -/
theorem C6_write_failure_aborts {σ P : Type} (repo : BulkUpdateRepository σ)
    (jp : JsonPatch P) (payload : BulkUpdatePayload) (w : World σ) (new : List Call)
    (hnew : (BulkUpdateDeploymentTemplate repo jp payload w).2.calls = w.calls ++ new)
    (m : GoMap) (werr : Err) (c : Call)
    (hc : c = Call.BulkUpdateChartsValuesYamlAndGlobalOverrideById m (some werr) ∨
      c = Call.BulkUpdateChartsEnvYamlOverrideById m (some werr))
    (hmem : c ∈ new) :
    (BulkUpdateDeploymentTemplate repo jp payload w).1 = ("Bulk Update Failed", some werr) ∧
    (∃ init, new = init ++ [c] ∧ Clean init) ∧ new.count c = 1 := by
  have hfail : c.failure = some werr := by
    rcases hc with rfl | rfl <;> rfl
  cases hdec : jp.DecodePatch payload.DeploymentTemplate.Spec.PatchJson with
  | error d =>
    rw [update_decode_error repo jp payload w d hdec] at hnew
    simp only at hnew
    have : new = [] := by simpa using hnew
    rw [this] at hmem
    cases hmem
  | ok patch =>
    obtain ⟨new', h1, h2, _⟩ := updateScopes_calls repo jp patch payload w
    rw [update_eq repo jp payload w patch hdec] at hnew ⊢
    rcases hu : updateScopes repo jp patch payload w with ⟨_ | err, m1, w2⟩
    · rw [hu] at hnew h1 h2
      simp only at hnew h1 h2
      have hEq : new = new' := List.append_cancel_left (hnew.symm.trans h1)
      subst hEq
      have := h2 c hmem
      rw [hfail] at this
      cases this
    · rw [hu] at hnew h1 h2
      simp only at hnew h1 h2
      have hEq : new = new' := List.append_cancel_left (hnew.symm.trans h1)
      subst hEq
      obtain ⟨he, init, hinit, hclean⟩ := h2.failed_is_last hmem hfail
      cases he
      refine ⟨rfl, ⟨init, hinit, hclean⟩, ?_⟩
      have hnot : c ∉ init := by
        intro hin
        have := hclean c hin
        rw [hfail] at this
        cases this
      rw [hinit, List.count_append, List.count_eq_zero_of_not_mem hnot]
      simp

/-- An instance of C6: the bulk write of environment `10` fails and environment `20` is
never reached. -/
theorem C6_write_failure_aborts_witness :
    (BulkUpdateDeploymentTemplate readOnlyOverrides.repo samplePatch
        (selection false [10, 20] replaceImageText) start).1
      = ("Bulk Update Failed", some "read-only transaction") ∧
    (∃ init,
      [Call.FindBulkChartsEnvByAppNameSubstring ["app1"] [] 10
          (Except.ok [{ Id := 11, EnvOverrideValues := imageDoc "v1" }]),
        Call.Apply (imageDoc "v1") (Except.ok (imageDoc "v2")),
        Call.BulkUpdateChartsEnvYamlOverrideById [(11, imageDoc "v2")]
          (some "read-only transaction")]
        = init ++ [Call.BulkUpdateChartsEnvYamlOverrideById [(11, imageDoc "v2")]
            (some "read-only transaction")] ∧
      Clean init) ∧
    List.count (Call.BulkUpdateChartsEnvYamlOverrideById [(11, imageDoc "v2")]
        (some "read-only transaction"))
      [Call.FindBulkChartsEnvByAppNameSubstring ["app1"] [] 10
          (Except.ok [{ Id := 11, EnvOverrideValues := imageDoc "v1" }]),
        Call.Apply (imageDoc "v1") (Except.ok (imageDoc "v2")),
        Call.BulkUpdateChartsEnvYamlOverrideById [(11, imageDoc "v2")]
          (some "read-only transaction")] = 1 :=
  C6_write_failure_aborts readOnlyOverrides.repo samplePatch
    (selection false [10, 20] replaceImageText) start _ (by decide)
    [(11, imageDoc "v2")] "read-only transaction" _ (Or.inr rfl) (by decide)

/-- C10: in a run of `BulkUpdateDeploymentTemplate` in which the patch decodes and no
call fails, the function returns success, and the fetches and bulk writes it makes are,
in order: the global fetch followed by one global write if and only if `global` is set,
then for each element of `envIds`, in the order supplied, the fetch for that environment
followed by one environment write.  Hence each fetch comes right after the write of the
scope before it, and the number of bulk writes is `(1 if global else 0) + length envIds`,
whatever the fetches returned. -/
theorem C10_scope_order {σ P : Type} (repo : BulkUpdateRepository σ) (jp : JsonPatch P)
    (payload : BulkUpdatePayload) (w : World σ) (patch : P)
    (hdec : jp.DecodePatch payload.DeploymentTemplate.Spec.PatchJson = Except.ok patch)
    (new : List Call)
    (hnew : (BulkUpdateDeploymentTemplate repo jp payload w).2.calls = w.calls ++ new)
    (hclean : Clean new) :
    (BulkUpdateDeploymentTemplate repo jp payload w).1 = ("Bulk Update is successful", none) ∧
    (scopeCalls new).map Call.kind =
      (if payload.Global then [Kind.fetchGlobal, Kind.writeGlobal] else []) ++
        payload.EnvIds.flatMap (fun e => [Kind.fetchEnv e, Kind.writeEnv]) ∧
    (new.filter Call.isWrite).map Call.kind =
      (if payload.Global then [Kind.writeGlobal] else []) ++
        List.replicate payload.EnvIds.length Kind.writeEnv ∧
    (new.filter Call.isWrite).length = (if payload.Global then 1 else 0) + payload.EnvIds.length
    := by
  obtain ⟨new', h1, h2, h3⟩ := updateScopes_calls repo jp patch payload w
  rw [update_eq repo jp payload w patch hdec] at hnew ⊢
  rcases hu : updateScopes repo jp patch payload w with ⟨_ | err, m1, w2⟩
  · rw [hu] at hnew h1 h2 h3
    simp only at hnew h1 h2 h3
    have hEq : new = new' := List.append_cancel_left (hnew.symm.trans h1)
    subst hEq
    have hk := h3 trivial
    have hwk : (new.filter Call.isWrite).map Call.kind =
        (if payload.Global then [Kind.writeGlobal] else []) ++
          List.replicate payload.EnvIds.length Kind.writeEnv := by
      rw [writes_kinds, hk, writes_scopeKinds]
    refine ⟨rfl, hk, hwk, ?_⟩
    have hlen := congrArg List.length hwk
    rw [List.length_map] at hlen
    rw [hlen]
    cases payload.Global <;> simp [Nat.add_comm]
  · rw [hu] at hnew h1 h2
    simp only at hnew h1 h2
    have hEq : new = new' := List.append_cancel_left (hnew.symm.trans h1)
    subst hEq
    have := h2.clean_iff.1 hclean
    cases this

/-- An instance of C10: the global scope and the environments `10` and `20`, every call
succeeding. -/
theorem C10_scope_order_witness :
    (BulkUpdateDeploymentTemplate healthy.repo samplePatch
        (selection true [10, 20] replaceImageText) start).1
      = ("Bulk Update is successful", none) ∧
    (scopeCalls (BulkUpdateDeploymentTemplate healthy.repo samplePatch
        (selection true [10, 20] replaceImageText) start).2.calls).map Call.kind =
      (if (selection true [10, 20] replaceImageText).Global
        then [Kind.fetchGlobal, Kind.writeGlobal] else []) ++
        (selection true [10, 20] replaceImageText).EnvIds.flatMap
          (fun e => [Kind.fetchEnv e, Kind.writeEnv]) ∧
    ((BulkUpdateDeploymentTemplate healthy.repo samplePatch
        (selection true [10, 20] replaceImageText) start).2.calls.filter Call.isWrite).map
        Call.kind =
      (if (selection true [10, 20] replaceImageText).Global then [Kind.writeGlobal] else []) ++
        List.replicate (selection true [10, 20] replaceImageText).EnvIds.length Kind.writeEnv ∧
    ((BulkUpdateDeploymentTemplate healthy.repo samplePatch
        (selection true [10, 20] replaceImageText) start).2.calls.filter Call.isWrite).length =
      (if (selection true [10, 20] replaceImageText).Global then 1 else 0) +
        (selection true [10, 20] replaceImageText).EnvIds.length :=
  C10_scope_order healthy.repo samplePatch (selection true [10, 20] replaceImageText) start
    "v2" (by decide)
    (BulkUpdateDeploymentTemplate healthy.repo samplePatch
      (selection true [10, 20] replaceImageText) start).2.calls
    (by decide) (by decide)

/-- C7: with `global = true` and no environment id, when the patch decodes, the global
fetch returns `charts`, the patch applies to the values of each chart with the results
`vs`, and the global bulk write of the map `chart.Id -> v` succeeds, then
`BulkUpdateDeploymentTemplate` returns `("Bulk Update is successful", nil)` and the calls
it makes are the global fetch, one application per chart and one global bulk write of
that map, in which a key has the value of the last chart with that id; it makes no
environment write. -/
theorem C7_global_only_success {σ P : Type} (repo : BulkUpdateRepository σ)
    (jp : JsonPatch P) (payload : BulkUpdatePayload) (w : World σ) (patch : P)
    (hdec : jp.DecodePatch payload.DeploymentTemplate.Spec.PatchJson = Except.ok patch)
    (hglobal : payload.Global = true) (hEnv : payload.EnvIds = [])
    (charts : List Chart) (db1 db2 : σ) (vs : List String)
    (hfetch : repo.FindBulkChartsByAppNameSubstring payload.Includes.Names
      payload.Excludes.Names w.db = (Except.ok charts, db1))
    (hvs : List.Forall₂ (fun r v => jp.Apply patch r.Values = Except.ok v) charts vs)
    (hwrite : repo.BulkUpdateChartsValuesYamlAndGlobalOverrideById
      (GoMap.empty.assign ((charts.map Chart.Id).zip vs)) db1 = (none, db2)) :
    BulkUpdateDeploymentTemplate repo jp payload w =
      (("Bulk Update is successful", none),
        ⟨db2, w.calls ++
          Call.FindBulkChartsByAppNameSubstring payload.Includes.Names
              payload.Excludes.Names (Except.ok charts) ::
            (charts.map (fun x => Call.Apply x.Values (jp.Apply patch x.Values)) ++
              [Call.BulkUpdateChartsValuesYamlAndGlobalOverrideById
                (GoMap.empty.assign ((charts.map Chart.Id).zip vs)) none])⟩) ∧
    (∀ k, (GoMap.empty.assign ((charts.map Chart.Id).zip vs)).get? k =
      lastValue ((charts.map Chart.Id).zip vs) k) := by
  refine ⟨?_, GoMap.get?_assign_empty _⟩
  rw [update_eq repo jp payload w patch hdec]
  simp only [updateScopes, hglobal, if_true, hEnv,
    globalScope_ok repo jp patch payload.Includes.Names payload.Excludes.Names GoMap.empty w
      charts db1 db2 vs hfetch hvs hwrite, envScopes]

/-- An instance of C7: one global chart whose `/image` is replaced by `"v2"`. -/
theorem C7_global_only_success_witness :
    BulkUpdateDeploymentTemplate healthy.repo samplePatch
        (selection true [] replaceImageText) start =
      (("Bulk Update is successful", none),
        ⟨2, [Call.FindBulkChartsByAppNameSubstring ["app1"] []
              (Except.ok [{ Id := 1, Values := "\x7b\"image\":\"v1\"\x7d" }]),
            Call.Apply "\x7b\"image\":\"v1\"\x7d" (Except.ok "\x7b\"image\":\"v2\"\x7d"),
            Call.BulkUpdateChartsValuesYamlAndGlobalOverrideById
              [(1, "\x7b\"image\":\"v2\"\x7d")] none]⟩) ∧
    (∀ k, GoMap.get? [(1, "\x7b\"image\":\"v2\"\x7d")] k =
      lastValue [(1, "\x7b\"image\":\"v2\"\x7d")] k) :=
  C7_global_only_success healthy.repo samplePatch (selection true [] replaceImageText) start
    "v2" (by decide) (by decide) (by decide)
    [{ Id := 1, Values := "\x7b\"image\":\"v1\"\x7d" }] 1 2 ["\x7b\"image\":\"v2\"\x7d"]
    (by decide) (List.Forall₂.cons (by decide) List.Forall₂.nil) (by decide)

/-- C2: the code at the input that shows the defect.  With `global = true` and
`envIds = [10]`, the global fetch returning the chart `1` and the fetch for environment
`10` returning the override `11`, the map passed to the bulk write of environment `10`
has the key `1`, which was fetched for the global scope only. -/
theorem C2_env_write_carries_global_ids :
    (BulkUpdateDeploymentTemplate healthy.repo samplePatch
        (selection true [10] replaceImageText) start) =
      (("Bulk Update is successful", none),
        ⟨4, [Call.FindBulkChartsByAppNameSubstring ["app1"] []
              (Except.ok [{ Id := 1, Values := imageDoc "v1" }]),
            Call.Apply (imageDoc "v1") (Except.ok (imageDoc "v2")),
            Call.BulkUpdateChartsValuesYamlAndGlobalOverrideById [(1, imageDoc "v2")] none,
            Call.FindBulkChartsEnvByAppNameSubstring ["app1"] [] 10
              (Except.ok [{ Id := 11, EnvOverrideValues := imageDoc "v1" }]),
            Call.Apply (imageDoc "v1") (Except.ok (imageDoc "v2")),
            Call.BulkUpdateChartsEnvYamlOverrideById
              [(11, imageDoc "v2"), (1, imageDoc "v2")] none]⟩) ∧
    GoMap.get? [(11, imageDoc "v2"), (1, imageDoc "v2")] 1 = some (imageDoc "v2") := by
  decide

/-! ## Further claims on `BulkUpdateDeploymentTemplate` -/

/-- C11: the status and the error of `BulkUpdateDeploymentTemplate` never disagree.  The
status is one of the two messages; it is `"Bulk Update is successful"` exactly when the
error is `nil` and `"Bulk Update Failed"` exactly when it is not.  A returned error `e`
is that of the first failing step: either the decoding failed with `e` and nothing was
called, or the patch decoded, the last call of the run failed with `e` and no call
before it failed.  Without an error the patch decoded and no call failed. -/
theorem C11_status_matches_error {σ P : Type} (repo : BulkUpdateRepository σ)
    (jp : JsonPatch P) (payload : BulkUpdatePayload) (w : World σ) :
    ((BulkUpdateDeploymentTemplate repo jp payload w).1.1 = "Bulk Update is successful" ∨
      (BulkUpdateDeploymentTemplate repo jp payload w).1.1 = "Bulk Update Failed") ∧
    ((BulkUpdateDeploymentTemplate repo jp payload w).1.1 = "Bulk Update is successful" ↔
      (BulkUpdateDeploymentTemplate repo jp payload w).1.2 = none) ∧
    ((BulkUpdateDeploymentTemplate repo jp payload w).1.1 = "Bulk Update Failed" ↔
      (BulkUpdateDeploymentTemplate repo jp payload w).1.2 ≠ none) ∧
    (∀ e, (BulkUpdateDeploymentTemplate repo jp payload w).1.2 = some e →
      (jp.DecodePatch payload.DeploymentTemplate.Spec.PatchJson = Except.error e ∧
        (BulkUpdateDeploymentTemplate repo jp payload w).2 = w) ∨
      (∃ patch init last,
        jp.DecodePatch payload.DeploymentTemplate.Spec.PatchJson = Except.ok patch ∧
        (BulkUpdateDeploymentTemplate repo jp payload w).2.calls = w.calls ++ (init ++ [last]) ∧
        Clean init ∧ last.failure = some e)) ∧
    ((BulkUpdateDeploymentTemplate repo jp payload w).1.2 = none →
      ∃ patch new,
        jp.DecodePatch payload.DeploymentTemplate.Spec.PatchJson = Except.ok patch ∧
        (BulkUpdateDeploymentTemplate repo jp payload w).2.calls = w.calls ++ new ∧
        Clean new) := by
  cases hdec : jp.DecodePatch payload.DeploymentTemplate.Spec.PatchJson with
  | error d =>
    rw [update_decode_error repo jp payload w d hdec]
    refine ⟨Or.inr rfl, ?_, ?_, ?_, ?_⟩
    · simp
    · simp
    · intro e he
      simp only [Option.some.injEq] at he
      subst he
      exact Or.inl ⟨rfl, rfl⟩
    · intro h
      simp at h
  | ok patch =>
    obtain ⟨new, h1, h2, _⟩ := updateScopes_calls repo jp patch payload w
    rw [update_eq repo jp payload w patch hdec]
    rcases hu : updateScopes repo jp patch payload w with ⟨_ | err, m1, w2⟩
    · rw [hu] at h1 h2
      simp only at h1 h2
      refine ⟨Or.inl rfl, ?_, ?_, ?_, ?_⟩
      · simp
      · simp
      · intro e he
        simp at he
      · intro _
        exact ⟨patch, new, rfl, h1, h2⟩
    · rw [hu] at h1 h2
      simp only at h1 h2
      obtain ⟨init, last, hnew, hinit, hlast⟩ := h2
      refine ⟨Or.inr rfl, ?_, ?_, ?_, ?_⟩
      · simp
      · simp
      · intro e he
        simp only [Option.some.injEq] at he
        subst he
        exact Or.inr ⟨patch, init, last, rfl, by rw [h1, hnew], hinit, hlast⟩
      · intro h
        simp at h

/-- C12, as amended: with `global = false` and no environment id,
`BulkUpdateDeploymentTemplate` makes no call at all whatever the patch text (it leaves the
store and the log as they were), and it returns `("Bulk Update is successful", nil)` when
the patch text decodes; when the text does not decode it returns
`"Bulk Update Failed"` with the decode error. -/
theorem C12_empty_selection_update {σ P : Type} (repo : BulkUpdateRepository σ)
    (jp : JsonPatch P) (payload : BulkUpdatePayload) (w : World σ)
    (hglobal : payload.Global = false) (hEnv : payload.EnvIds = []) :
    (BulkUpdateDeploymentTemplate repo jp payload w).2 = w ∧
    (∀ patch, jp.DecodePatch payload.DeploymentTemplate.Spec.PatchJson = Except.ok patch →
      (BulkUpdateDeploymentTemplate repo jp payload w).1 =
        ("Bulk Update is successful", none)) ∧
    (∀ d, jp.DecodePatch payload.DeploymentTemplate.Spec.PatchJson = Except.error d →
      (BulkUpdateDeploymentTemplate repo jp payload w).1 = ("Bulk Update Failed", some d)) := by
  cases hdec : jp.DecodePatch payload.DeploymentTemplate.Spec.PatchJson with
  | error d =>
    rw [update_decode_error repo jp payload w d hdec]
    refine ⟨rfl, ?_, ?_⟩
    · intro patch h
      cases h
    · intro d' h
      cases h
      rfl
  | ok patch =>
    rw [update_eq repo jp payload w patch hdec]
    simp only [updateScopes, hglobal, hEnv, envScopes]
    refine ⟨rfl, ?_, ?_⟩
    · intro _ _
      rfl
    · intro d h
      cases h

/-- An instance of C12 as amended: no scope is selected and the patch text decodes. -/
theorem C12_empty_selection_update_witness :
    BulkUpdateDeploymentTemplate healthy.repo samplePatch
        (selection false [] replaceImageText) start =
      (("Bulk Update is successful", none), start) :=
  Prod.ext
    ((C12_empty_selection_update healthy.repo samplePatch
      (selection false [] replaceImageText) start (by decide) (by decide)).2.1 "v2"
      (by decide))
    (C12_empty_selection_update healthy.repo samplePatch
      (selection false [] replaceImageText) start (by decide) (by decide)).1

/-- C12, as stated, fails: with `global = false`, no environment id and a patch text
that does not decode, the status is `"Bulk Update Failed"`, not the success status. -/
theorem C12_counterexample :
    (selection false [] "not a patch").Global = false ∧
    (selection false [] "not a patch").EnvIds = [] ∧
    (BulkUpdateDeploymentTemplate healthy.repo samplePatch
        (selection false [] "not a patch") start).1 =
      ("Bulk Update Failed", some "invalid patch document") ∧
    (BulkUpdateDeploymentTemplate healthy.repo samplePatch
        (selection false [] "not a patch") start).1.1 ≠ "Bulk Update is successful" := by
  decide

/-! ## Further claims on `GetBulkAppName` -/

/-- C13: with `global = false` and no environment id, `GetBulkAppName` returns an empty
list and no error, and makes no fetch: the store and the log are as they were. -/
theorem C13_empty_selection_resolve {σ : Type} (repo : BulkUpdateRepository σ)
    (payload : BulkUpdatePayload) (w : World σ)
    (hglobal : payload.Global = false) (hEnv : payload.EnvIds = []) :
    GetBulkAppName repo payload w = ((some [], none), w) := by
  simp [GetBulkAppName, resolvePasses, hglobal, hEnv, envPasses, GoMap.empty]

/-- An instance of C13: no scope is selected. -/
theorem C13_empty_selection_resolve_witness :
    GetBulkAppName healthy.repo (selection false [] "") start = ((some [], none), start) :=
  C13_empty_selection_resolve healthy.repo (selection false [] "") start
    (by decide) (by decide)

/-! ## Lemmas on the maps given to the bulk writes -/

theorem GoMap.assign_append (m : GoMap) (a b : List (Int × String)) :
    m.assign (a ++ b) = (m.assign a).assign b := by
  simp [GoMap.assign, List.foldl_append]

theorem patchedRows_append {P : Type} (jp : JsonPatch P) (patch : P) (a b : List Call) :
    patchedRows jp patch (a ++ b) = patchedRows jp patch a ++ patchedRows jp patch b := by
  simp [patchedRows, patched, List.flatMap_append, List.filterMap_append]

theorem patchedRows_no_rows {P : Type} (jp : JsonPatch P) (patch : P) (l : List Call)
    (h : ∀ c ∈ l, c.fetchedRows = []) : patchedRows jp patch l = [] := by
  have : l.flatMap Call.fetchedRows = [] := by
    rw [List.flatMap_eq_nil_iff]
    exact h
  simp [patchedRows, patched, this]

theorem apply_kind_plain (c : Call) (h : c.kind = Kind.apply) :
    c.written = none ∧ c.fetchedRows = [] := by
  cases c <;> simp [Call.kind] at h
  exact ⟨rfl, rfl⟩

theorem writesCarry_of_no_writes {P : Type} (jp : JsonPatch P) (patch : P)
    (pre l : List Call) (h : ∀ c ∈ l, c.written = none) : WritesCarry jp patch pre l := by
  intro before c after m hl hc
  have := h c (by rw [hl]; simp)
  rw [this] at hc
  cases hc

theorem writesCarry_single {P : Type} (jp : JsonPatch P) (patch : P) (pre : List Call)
    (c : Call)
    (h : ∀ m, c.written = some m → m = GoMap.empty.assign (patchedRows jp patch pre)) :
    WritesCarry jp patch pre [c] := by
  intro before c' after m hl hc
  cases before with
  | nil =>
    simp only [List.nil_append, List.cons.injEq] at hl
    rw [← hl.1] at hc
    simpa using h m hc
  | cons b bs =>
    simp only [List.cons_append, List.cons.injEq] at hl
    have := congrArg List.length hl.2
    simp only [List.length_nil, List.length_append, List.length_cons] at this
    omega

theorem writesCarry_append {P : Type} (jp : JsonPatch P) (patch : P) (pre a b : List Call)
    (ha : WritesCarry jp patch pre a) (hb : WritesCarry jp patch (pre ++ a) b) :
    WritesCarry jp patch pre (a ++ b) := by
  intro before c after m hl hc
  rcases List.append_eq_append_iff.1 hl with ⟨a', h1, h2⟩ | ⟨c', h1, h2⟩
  · have := hb a' c after m h2 hc
    rw [this, h1, List.append_assoc]
  · cases c' with
    | nil =>
      simp only [List.nil_append] at h2
      simp only [List.append_nil] at h1
      have := hb [] c after m h2.symm hc
      rw [this, h1, List.append_nil]
    | cons x xs =>
      simp only [List.cons_append, List.cons.injEq] at h2
      rw [← h2.1] at h1
      exact ha before c xs m h1 hc

theorem patchAll_none {P : Type} (jp : JsonPatch P) (patch : P) :
    ∀ (rows : List (Int × String)) (m m' : GoMap) (calls calls' : List Call),
      patchAll jp patch rows m calls = (none, m', calls') →
      m' = m.assign (patched jp patch rows) ∧ calls' = calls ++ applyCalls jp patch rows := by
  intro rows
  induction rows with
  | nil =>
    intro m m' calls calls' h
    simp only [patchAll, Prod.mk.injEq, true_and] at h
    simp [patched, GoMap.assign, applyCalls, h.1, h.2]
  | cons r rest ih =>
    intro m m' calls calls' h
    obtain ⟨id, values⟩ := r
    cases hv : jp.Apply patch values with
    | error err =>
      simp [patchAll, ApplyJsonPatch, hv] at h
    | ok v =>
      simp only [patchAll, ApplyJsonPatch, hv] at h
      obtain ⟨h1, h2⟩ := ih _ _ _ _ h
      constructor
      · rw [h1]
        simp [patched, hv, GoMap.assign]
      · rw [h2]
        simp [applyCalls, hv]

theorem applyCalls_plain {P : Type} (jp : JsonPatch P) (patch : P)
    (rows : List (Int × String)) :
    ∀ c ∈ applyCalls jp patch rows, c.written = none ∧ c.fetchedRows = [] := by
  intro c hc
  simp only [applyCalls, List.mem_map] at hc
  obtain ⟨r, _, rfl⟩ := hc
  exact ⟨rfl, rfl⟩

theorem genuine_assign_patched {P : Type} (jp : JsonPatch P) (patch : P)
    (rows : List (Int × String)) : Genuine jp patch (GoMap.empty.assign (patched jp patch rows))
    := by
  intro k v h
  rw [GoMap.get?_assign_empty] at h
  simp only [lastValue, Option.map_eq_some'] at h
  obtain ⟨kv, hfind, hv⟩ := h
  have hmem : kv ∈ patched jp patch rows := by
    have := List.mem_of_find?_eq_some hfind
    simpa using this
  simp only [patched, List.mem_filterMap] at hmem
  obtain ⟨r, _, hr⟩ := hmem
  cases ha : jp.Apply patch r.2 with
  | error err =>
    rw [ha] at hr
    cases hr
  | ok x =>
    rw [ha] at hr
    simp only [Option.some.injEq] at hr
    refine ⟨r.2, ?_⟩
    rw [ha, ← hv, ← hr]

theorem block_carry {P : Type} (jp : JsonPatch P) (patch : P) (pre : List Call)
    (f wc : Call) (rows : List (Int × String)) (m m' : GoMap)
    (hm : m = GoMap.empty.assign (patchedRows jp patch pre))
    (hf1 : f.written = none) (hf2 : f.fetchedRows = rows)
    (hm' : m' = m.assign (patched jp patch rows))
    (hw1 : wc.written = some m') (hw2 : wc.fetchedRows = []) :
    WritesCarry jp patch pre (f :: (applyCalls jp patch rows ++ [wc])) ∧
      m' = GoMap.empty.assign
        (patchedRows jp patch (pre ++ f :: (applyCalls jp patch rows ++ [wc]))) := by
  have hA : patchedRows jp patch (f :: applyCalls jp patch rows) = patched jp patch rows := by
    have h0 : f :: applyCalls jp patch rows = [f] ++ applyCalls jp patch rows := rfl
    rw [h0, patchedRows_append,
      patchedRows_no_rows jp patch (applyCalls jp patch rows)
        (fun c hc => (applyCalls_plain jp patch rows c hc).2)]
    simp [patchedRows, hf2]
  have hmA : m' = GoMap.empty.assign
      (patchedRows jp patch (pre ++ f :: applyCalls jp patch rows)) := by
    rw [patchedRows_append, hA, GoMap.assign_append, ← hm, hm']
  have hsplit : f :: (applyCalls jp patch rows ++ [wc]) =
      (f :: applyCalls jp patch rows) ++ [wc] := by simp
  constructor
  · rw [hsplit]
    apply writesCarry_append
    · apply writesCarry_of_no_writes
      intro c hc
      rcases List.mem_cons.1 hc with rfl | hc
      · exact hf1
      · exact (applyCalls_plain jp patch rows c hc).1
    · apply writesCarry_single
      intro m0 h0
      rw [hw1] at h0
      cases h0
      exact hmA
  · rw [hsplit, ← List.append_assoc, patchedRows_append,
      patchedRows_no_rows jp patch [wc] (by simpa using hw2), List.append_nil]
    exact hmA

theorem envScope_maps {σ P : Type} (repo : BulkUpdateRepository σ) (jp : JsonPatch P)
    (patch : P) (inc exc : List String) (e : Int) (m : GoMap) (w : World σ)
    (pre : List Call) (hm : m = GoMap.empty.assign (patchedRows jp patch pre)) :
    ∃ new1, (envScope repo jp patch inc exc e m w).2.2.calls = w.calls ++ new1 ∧
      WritesCarry jp patch pre new1 ∧
      ((envScope repo jp patch inc exc e m w).1 = none →
        (envScope repo jp patch inc exc e m w).2.1 =
          GoMap.empty.assign (patchedRows jp patch (pre ++ new1))) := by
  rcases hf : repo.FindBulkChartsEnvByAppNameSubstring inc exc e w.db with ⟨err | rows, db⟩
  · refine ⟨[Call.FindBulkChartsEnvByAppNameSubstring inc exc e (Except.error err)], ?_, ?_, ?_⟩
    · simp [envScope, hf]
    · exact writesCarry_of_no_writes jp patch pre _ (by simp [Call.written])
    · simp [envScope, hf]
  · rcases hp : patchAll jp patch
      (rows.map (fun chartEnv => (chartEnv.Id, chartEnv.EnvOverrideValues))) m
      (w.calls ++ [Call.FindBulkChartsEnvByAppNameSubstring inc exc e (Except.ok rows)])
      with ⟨_ | perr, m', calls'⟩
    · obtain ⟨h1, h2⟩ := patchAll_none jp patch _ _ _ _ _ hp
      rcases hw : repo.BulkUpdateChartsEnvYamlOverrideById m' db with ⟨_ | werr, db'⟩
      · obtain ⟨g1, g2⟩ := block_carry jp patch pre
          (Call.FindBulkChartsEnvByAppNameSubstring inc exc e (Except.ok rows))
          (Call.BulkUpdateChartsEnvYamlOverrideById m' none)
          (rows.map (fun chartEnv : EnvConfigOverride => (chartEnv.Id, chartEnv.EnvOverrideValues)))
          m m' hm rfl (by rfl)
          h1 rfl rfl
        refine ⟨_, ?_, g1, ?_⟩
        · simp [envScope, hf, hp, hw, h2]
        · intro _
          simp only [envScope, hf, hp, hw]
          exact g2
      · obtain ⟨g1, _⟩ := block_carry jp patch pre
          (Call.FindBulkChartsEnvByAppNameSubstring inc exc e (Except.ok rows))
          (Call.BulkUpdateChartsEnvYamlOverrideById m' (some werr))
          (rows.map (fun chartEnv : EnvConfigOverride => (chartEnv.Id, chartEnv.EnvOverrideValues)))
          m m' hm rfl (by rfl)
          h1 rfl rfl
        refine ⟨_, ?_, g1, ?_⟩
        · simp [envScope, hf, hp, hw, h2]
        · simp [envScope, hf, hp, hw]
    · obtain ⟨newp, g1, g2, _⟩ := patchAll_calls jp patch
        (rows.map (fun chartEnv => (chartEnv.Id, chartEnv.EnvOverrideValues))) m
        (w.calls ++ [Call.FindBulkChartsEnvByAppNameSubstring inc exc e (Except.ok rows)])
      rw [hp] at g1
      simp only at g1
      refine ⟨Call.FindBulkChartsEnvByAppNameSubstring inc exc e (Except.ok rows) :: newp,
        ?_, ?_, ?_⟩
      · simp [envScope, hf, hp, g1]
      · apply writesCarry_of_no_writes
        intro c hc
        rcases List.mem_cons.1 hc with rfl | hc
        · rfl
        · exact (apply_kind_plain c (g2 c hc)).1
      · simp [envScope, hf, hp]

theorem globalScope_maps {σ P : Type} (repo : BulkUpdateRepository σ) (jp : JsonPatch P)
    (patch : P) (inc exc : List String) (m : GoMap) (w : World σ)
    (pre : List Call) (hm : m = GoMap.empty.assign (patchedRows jp patch pre)) :
    ∃ new1, (globalScope repo jp patch inc exc m w).2.2.calls = w.calls ++ new1 ∧
      WritesCarry jp patch pre new1 ∧
      ((globalScope repo jp patch inc exc m w).1 = none →
        (globalScope repo jp patch inc exc m w).2.1 =
          GoMap.empty.assign (patchedRows jp patch (pre ++ new1))) := by
  rcases hf : repo.FindBulkChartsByAppNameSubstring inc exc w.db with ⟨err | rows, db⟩
  · refine ⟨[Call.FindBulkChartsByAppNameSubstring inc exc (Except.error err)], ?_, ?_, ?_⟩
    · simp [globalScope, hf]
    · exact writesCarry_of_no_writes jp patch pre _ (by simp [Call.written])
    · simp [globalScope, hf]
  · rcases hp : patchAll jp patch (rows.map (fun chart => (chart.Id, chart.Values))) m
      (w.calls ++ [Call.FindBulkChartsByAppNameSubstring inc exc (Except.ok rows)])
      with ⟨_ | perr, m', calls'⟩
    · obtain ⟨h1, h2⟩ := patchAll_none jp patch _ _ _ _ _ hp
      rcases hw : repo.BulkUpdateChartsValuesYamlAndGlobalOverrideById m' db
        with ⟨_ | werr, db'⟩
      · obtain ⟨g1, g2⟩ := block_carry jp patch pre
          (Call.FindBulkChartsByAppNameSubstring inc exc (Except.ok rows))
          (Call.BulkUpdateChartsValuesYamlAndGlobalOverrideById m' none)
          (rows.map (fun chart : Chart => (chart.Id, chart.Values))) m m' hm rfl (by rfl) h1 rfl rfl
        refine ⟨_, ?_, g1, ?_⟩
        · simp [globalScope, hf, hp, hw, h2]
        · intro _
          simp only [globalScope, hf, hp, hw]
          exact g2
      · obtain ⟨g1, _⟩ := block_carry jp patch pre
          (Call.FindBulkChartsByAppNameSubstring inc exc (Except.ok rows))
          (Call.BulkUpdateChartsValuesYamlAndGlobalOverrideById m' (some werr))
          (rows.map (fun chart : Chart => (chart.Id, chart.Values))) m m' hm rfl (by rfl) h1 rfl rfl
        refine ⟨_, ?_, g1, ?_⟩
        · simp [globalScope, hf, hp, hw, h2]
        · simp [globalScope, hf, hp, hw]
    · obtain ⟨newp, g1, g2, _⟩ := patchAll_calls jp patch
        (rows.map (fun chart => (chart.Id, chart.Values))) m
        (w.calls ++ [Call.FindBulkChartsByAppNameSubstring inc exc (Except.ok rows)])
      rw [hp] at g1
      simp only at g1
      refine ⟨Call.FindBulkChartsByAppNameSubstring inc exc (Except.ok rows) :: newp,
        ?_, ?_, ?_⟩
      · simp [globalScope, hf, hp, g1]
      · apply writesCarry_of_no_writes
        intro c hc
        rcases List.mem_cons.1 hc with rfl | hc
        · rfl
        · exact (apply_kind_plain c (g2 c hc)).1
      · simp [globalScope, hf, hp]

theorem envScopes_maps {σ P : Type} (repo : BulkUpdateRepository σ) (jp : JsonPatch P)
    (patch : P) (inc exc : List String) :
    ∀ (envIds : List Int) (m : GoMap) (w : World σ) (pre : List Call),
      m = GoMap.empty.assign (patchedRows jp patch pre) →
      ∃ new, (envScopes repo jp patch inc exc envIds m w).2.2.calls = w.calls ++ new ∧
        WritesCarry jp patch pre new := by
  intro envIds
  induction envIds with
  | nil =>
    intro m w pre _
    exact ⟨[], by simp [envScopes],
      writesCarry_of_no_writes jp patch pre [] (by simp)⟩
  | cons e es ih =>
    intro m w pre hm
    obtain ⟨new1, h1, h2, h3⟩ := envScope_maps repo jp patch inc exc e m w pre hm
    rcases hs : envScope repo jp patch inc exc e m w with ⟨_ | err, m1, w1⟩
    · rw [hs] at h1 h3
      simp only at h1 h3
      obtain ⟨new2, g1, g2⟩ := ih m1 w1 (pre ++ new1) (h3 trivial)
      refine ⟨new1 ++ new2, ?_, writesCarry_append jp patch pre new1 new2 h2 g2⟩
      simp only [envScopes, hs]
      rw [g1, h1, List.append_assoc]
    · rw [hs] at h1
      simp only at h1
      refine ⟨new1, ?_, h2⟩
      simp only [envScopes, hs]
      exact h1

theorem updateScopes_maps {σ P : Type} (repo : BulkUpdateRepository σ) (jp : JsonPatch P)
    (patch : P) (payload : BulkUpdatePayload) (w : World σ) :
    ∃ new, (updateScopes repo jp patch payload w).2.2.calls = w.calls ++ new ∧
      WritesCarry jp patch [] new := by
  have h0 : GoMap.empty = GoMap.empty.assign (patchedRows jp patch []) := rfl
  cases hg : payload.Global with
  | false =>
    obtain ⟨new, h1, h2⟩ := envScopes_maps repo jp patch payload.Includes.Names
      payload.Excludes.Names payload.EnvIds GoMap.empty w [] h0
    exact ⟨new, by simpa [updateScopes, hg] using h1, h2⟩
  | true =>
    obtain ⟨new1, h1, h2, h3⟩ := globalScope_maps repo jp patch payload.Includes.Names
      payload.Excludes.Names GoMap.empty w [] h0
    rcases hs : globalScope repo jp patch payload.Includes.Names
      payload.Excludes.Names GoMap.empty w with ⟨_ | err, m1, w1⟩
    · rw [hs] at h1 h3
      simp only at h1 h3
      obtain ⟨new2, g1, g2⟩ := envScopes_maps repo jp patch payload.Includes.Names
        payload.Excludes.Names payload.EnvIds m1 w1 ([] ++ new1) (h3 trivial)
      refine ⟨new1 ++ new2, ?_, writesCarry_append jp patch [] new1 new2 h2 g2⟩
      simp only [updateScopes, hg, if_true, hs]
      rw [g1, h1, List.append_assoc]
    · rw [hs] at h1
      simp only at h1
      refine ⟨new1, ?_, h2⟩
      simp only [updateScopes, hg, if_true, hs]
      exact h1

theorem update_maps {σ P : Type} (repo : BulkUpdateRepository σ) (jp : JsonPatch P)
    (payload : BulkUpdatePayload) (w : World σ) (patch : P)
    (hdec : jp.DecodePatch payload.DeploymentTemplate.Spec.PatchJson = Except.ok patch)
    (new : List Call)
    (hnew : (BulkUpdateDeploymentTemplate repo jp payload w).2.calls = w.calls ++ new) :
    WritesCarry jp patch [] new := by
  obtain ⟨new', h1, h2⟩ := updateScopes_maps repo jp patch payload w
  rw [update_eq repo jp payload w patch hdec] at hnew
  have hc : (updateScopes repo jp patch payload w).2.2.calls = w.calls ++ new := by
    rcases hu : updateScopes repo jp patch payload w with ⟨_ | err, m1, w2⟩
    · rw [hu] at hnew
      exact hnew
    · rw [hu] at hnew
      exact hnew
  have hEq : new = new' := List.append_cancel_left (hc.symm.trans h1)
  rw [hEq]
  exact h2

theorem genuine_empty {P : Type} (jp : JsonPatch P) (patch : P) :
    Genuine jp patch GoMap.empty := by
  intro k v h
  simp [GoMap.empty, GoMap.get?] at h

theorem patchAll_genuine {P : Type} (jp : JsonPatch P) (patch : P) :
    ∀ (rows : List (Int × String)) (m : GoMap) (calls : List Call),
      Genuine jp patch m → Genuine jp patch (patchAll jp patch rows m calls).2.1 := by
  intro rows
  induction rows with
  | nil =>
    intro m calls h
    simpa [patchAll] using h
  | cons r rest ih =>
    intro m calls h
    obtain ⟨id, values⟩ := r
    cases hv : jp.Apply patch values with
    | error err =>
      simpa [patchAll, ApplyJsonPatch, hv] using h
    | ok v =>
      simp only [patchAll, ApplyJsonPatch, hv]
      apply ih
      intro k x hk
      rw [GoMap.get?_set] at hk
      by_cases hid : id = k
      · rw [if_pos hid] at hk
        cases hk
        exact ⟨values, hv⟩
      · rw [if_neg hid] at hk
        exact h k x hk

theorem envScope_genuine {σ P : Type} (repo : BulkUpdateRepository σ) (jp : JsonPatch P)
    (patch : P) (inc exc : List String) (e : Int) (m : GoMap) (w : World σ)
    (h : Genuine jp patch m) :
    Genuine jp patch (envScope repo jp patch inc exc e m w).2.1 := by
  rcases hf : repo.FindBulkChartsEnvByAppNameSubstring inc exc e w.db with ⟨err | rows, db⟩
  · simpa [envScope, hf] using h
  · have hg := patchAll_genuine jp patch
      (rows.map (fun chartEnv => (chartEnv.Id, chartEnv.EnvOverrideValues))) m
      (w.calls ++ [Call.FindBulkChartsEnvByAppNameSubstring inc exc e (Except.ok rows)]) h
    rcases hp : patchAll jp patch
      (rows.map (fun chartEnv => (chartEnv.Id, chartEnv.EnvOverrideValues))) m
      (w.calls ++ [Call.FindBulkChartsEnvByAppNameSubstring inc exc e (Except.ok rows)])
      with ⟨_ | perr, m', calls'⟩
    · rw [hp] at hg
      rcases hw : repo.BulkUpdateChartsEnvYamlOverrideById m' db with ⟨_ | werr, db'⟩
      · simpa [envScope, hf, hp, hw] using hg
      · simpa [envScope, hf, hp, hw] using hg
    · rw [hp] at hg
      simpa [envScope, hf, hp] using hg

theorem globalScope_genuine {σ P : Type} (repo : BulkUpdateRepository σ) (jp : JsonPatch P)
    (patch : P) (inc exc : List String) (m : GoMap) (w : World σ)
    (h : Genuine jp patch m) :
    Genuine jp patch (globalScope repo jp patch inc exc m w).2.1 := by
  rcases hf : repo.FindBulkChartsByAppNameSubstring inc exc w.db with ⟨err | rows, db⟩
  · simpa [globalScope, hf] using h
  · have hg := patchAll_genuine jp patch
      (rows.map (fun chart => (chart.Id, chart.Values))) m
      (w.calls ++ [Call.FindBulkChartsByAppNameSubstring inc exc (Except.ok rows)]) h
    rcases hp : patchAll jp patch
      (rows.map (fun chart => (chart.Id, chart.Values))) m
      (w.calls ++ [Call.FindBulkChartsByAppNameSubstring inc exc (Except.ok rows)])
      with ⟨_ | perr, m', calls'⟩
    · rw [hp] at hg
      rcases hw : repo.BulkUpdateChartsValuesYamlAndGlobalOverrideById m' db
        with ⟨_ | werr, db'⟩
      · simpa [globalScope, hf, hp, hw] using hg
      · simpa [globalScope, hf, hp, hw] using hg
    · rw [hp] at hg
      simpa [globalScope, hf, hp] using hg

theorem envScopes_genuine {σ P : Type} (repo : BulkUpdateRepository σ) (jp : JsonPatch P)
    (patch : P) (inc exc : List String) :
    ∀ (envIds : List Int) (m : GoMap) (w : World σ), Genuine jp patch m →
      Genuine jp patch (envScopes repo jp patch inc exc envIds m w).2.1 := by
  intro envIds
  induction envIds with
  | nil =>
    intro m w h
    simpa [envScopes] using h
  | cons e es ih =>
    intro m w h
    have h1 := envScope_genuine repo jp patch inc exc e m w h
    rcases hs : envScope repo jp patch inc exc e m w with ⟨_ | err, m1, w1⟩
    · rw [hs] at h1
      simp only [envScopes, hs]
      exact ih m1 w1 h1
    · rw [hs] at h1
      simpa [envScopes, hs] using h1

theorem updateScopes_genuine {σ P : Type} (repo : BulkUpdateRepository σ) (jp : JsonPatch P)
    (patch : P) (payload : BulkUpdatePayload) (w : World σ) :
    Genuine jp patch (updateScopes repo jp patch payload w).2.1 := by
  cases hg : payload.Global with
  | false =>
    simp only [updateScopes, hg]
    exact envScopes_genuine repo jp patch _ _ payload.EnvIds GoMap.empty w
      (genuine_empty jp patch)
  | true =>
    have h1 := globalScope_genuine repo jp patch payload.Includes.Names
      payload.Excludes.Names GoMap.empty w (genuine_empty jp patch)
    simp only [updateScopes, hg, if_true]
    rcases hs : globalScope repo jp patch payload.Includes.Names
      payload.Excludes.Names GoMap.empty w with ⟨_ | err, m1, w1⟩
    · rw [hs] at h1
      exact envScopes_genuine repo jp patch _ _ payload.EnvIds m1 w1 h1
    · rw [hs] at h1
      exact h1

/-! ## Claims on the update map -/

/-- C17: the update map of `BulkUpdateDeploymentTemplate` is never cleared between
scopes.  In a run in which the patch decodes, the map given to a bulk write is the map
of the assignments `m[Id] = patched values`, in order, for all rows fetched before that
write in the run, those of the global scope and of earlier environments included: a key
has the patched values of the last such row with that id.  Hence every key of the map
given to a bulk write is a key of the map given to every later bulk write of the run. -/
theorem C17_map_never_cleared {σ P : Type} (repo : BulkUpdateRepository σ)
    (jp : JsonPatch P) (payload : BulkUpdatePayload) (w : World σ) (patch : P)
    (hdec : jp.DecodePatch payload.DeploymentTemplate.Spec.PatchJson = Except.ok patch)
    (new : List Call)
    (hnew : (BulkUpdateDeploymentTemplate repo jp payload w).2.calls = w.calls ++ new) :
    (∀ before c after m, new = before ++ c :: after → c.written = some m →
      m = GoMap.empty.assign (patchedRows jp patch before) ∧
      ∀ k, m.get? k = lastValue (patchedRows jp patch before) k) ∧
    (∀ before c1 mid c2 after m1 m2, new = before ++ c1 :: (mid ++ c2 :: after) →
      c1.written = some m1 → c2.written = some m2 →
      ∀ k, (m1.get? k).isSome → (m2.get? k).isSome) := by
  have hcarry := update_maps repo jp payload w patch hdec new hnew
  have first : ∀ before c after m, new = before ++ c :: after → c.written = some m →
      m = GoMap.empty.assign (patchedRows jp patch before) := by
    intro before c after m hl hc
    simpa using hcarry before c after m hl hc
  refine ⟨?_, ?_⟩
  · intro before c after m hl hc
    have hm := first before c after m hl hc
    refine ⟨hm, ?_⟩
    intro k
    rw [hm, GoMap.get?_assign_empty]
  · intro before c1 mid c2 after m1 m2 hl h1 h2 k hk
    have hm1 := first before c1 (mid ++ c2 :: after) m1 hl h1
    have hl2 : new = (before ++ c1 :: mid) ++ c2 :: after := by
      rw [hl]
      simp
    have hm2 := first (before ++ c1 :: mid) c2 after m2 hl2 h2
    rw [patchedRows_append, GoMap.assign_append, ← hm1] at hm2
    rw [hm2, GoMap.get?_assign]
    cases lastValue (patchedRows jp patch (c1 :: mid)) k with
    | none => simpa using hk
    | some v => simp

/-- An instance of C17: after the global scope, whose chart has id `1`, the bulk write of
environment `10`, whose override has id `11`, is given a map with both keys. -/
theorem C17_map_never_cleared_witness :
    ([(11, imageDoc "v2"), (1, imageDoc "v2")] : GoMap) =
        GoMap.empty.assign (patchedRows samplePatch "v2"
          [Call.FindBulkChartsByAppNameSubstring ["app1"] []
              (Except.ok [{ Id := 1, Values := imageDoc "v1" }]),
            Call.Apply (imageDoc "v1") (Except.ok (imageDoc "v2")),
            Call.BulkUpdateChartsValuesYamlAndGlobalOverrideById [(1, imageDoc "v2")] none,
            Call.FindBulkChartsEnvByAppNameSubstring ["app1"] [] 10
              (Except.ok [{ Id := 11, EnvOverrideValues := imageDoc "v1" }]),
            Call.Apply (imageDoc "v1") (Except.ok (imageDoc "v2"))]) ∧
      ∀ k, GoMap.get? [(11, imageDoc "v2"), (1, imageDoc "v2")] k =
        lastValue (patchedRows samplePatch "v2"
          [Call.FindBulkChartsByAppNameSubstring ["app1"] []
              (Except.ok [{ Id := 1, Values := imageDoc "v1" }]),
            Call.Apply (imageDoc "v1") (Except.ok (imageDoc "v2")),
            Call.BulkUpdateChartsValuesYamlAndGlobalOverrideById [(1, imageDoc "v2")] none,
            Call.FindBulkChartsEnvByAppNameSubstring ["app1"] [] 10
              (Except.ok [{ Id := 11, EnvOverrideValues := imageDoc "v1" }]),
            Call.Apply (imageDoc "v1") (Except.ok (imageDoc "v2"))]) k :=
  (C17_map_never_cleared healthy.repo samplePatch (selection true [10] replaceImageText)
    start "v2" (by decide)
    (BulkUpdateDeploymentTemplate healthy.repo samplePatch
      (selection true [10] replaceImageText) start).2.calls (by decide)).1
    [Call.FindBulkChartsByAppNameSubstring ["app1"] []
        (Except.ok [{ Id := 1, Values := imageDoc "v1" }]),
      Call.Apply (imageDoc "v1") (Except.ok (imageDoc "v2")),
      Call.BulkUpdateChartsValuesYamlAndGlobalOverrideById [(1, imageDoc "v2")] none,
      Call.FindBulkChartsEnvByAppNameSubstring ["app1"] [] 10
        (Except.ok [{ Id := 11, EnvOverrideValues := imageDoc "v1" }]),
      Call.Apply (imageDoc "v1") (Except.ok (imageDoc "v2"))]
    (Call.BulkUpdateChartsEnvYamlOverrideById [(11, imageDoc "v2"), (1, imageDoc "v2")] none)
    [] [(11, imageDoc "v2"), (1, imageDoc "v2")] (by decide) rfl

/-- C18: `ApplyJsonPatch` returns `(m, nil)` when the application of the patch succeeds
with `m`, and `("Patch Failed", e)` when it fails with `e`.  The status of
`BulkUpdateDeploymentTemplate` is never `"Patch Failed"`.  Every value of the update map
in which the function returns, and of every map given to a bulk write, is the result of
a successful application of the patch; so for a patch library whose successful
applications never yield the text `Patch Failed`, as for one that yields JSON documents,
the placeholder is in none of these maps. -/
theorem C18_patch_failed_placeholder {σ P : Type} (repo : BulkUpdateRepository σ)
    (jp : JsonPatch P) (payload : BulkUpdatePayload) (w : World σ) :
    (∀ patch t v, jp.Apply patch t = Except.ok v → ApplyJsonPatch jp patch t = (v, none)) ∧
    (∀ patch t e, jp.Apply patch t = Except.error e →
      ApplyJsonPatch jp patch t = ("Patch Failed", some e)) ∧
    (BulkUpdateDeploymentTemplate repo jp payload w).1.1 ≠ "Patch Failed" ∧
    (∀ patch, jp.DecodePatch payload.DeploymentTemplate.Spec.PatchJson = Except.ok patch →
      (∀ k v, (updateScopes repo jp patch payload w).2.1.get? k = some v →
        ∃ t, jp.Apply patch t = Except.ok v) ∧
      (∀ new c m k v,
        (BulkUpdateDeploymentTemplate repo jp payload w).2.calls = w.calls ++ new →
        c ∈ new → c.written = some m → m.get? k = some v →
        ∃ t, jp.Apply patch t = Except.ok v) ∧
      ((∀ t, jp.Apply patch t ≠ Except.ok "Patch Failed") →
        (∀ k, (updateScopes repo jp patch payload w).2.1.get? k ≠ some "Patch Failed") ∧
        (∀ new c m k,
          (BulkUpdateDeploymentTemplate repo jp payload w).2.calls = w.calls ++ new →
          c ∈ new → c.written = some m → m.get? k ≠ some "Patch Failed"))) := by
  refine ⟨?_, ?_, ?_, ?_⟩
  · intro patch t v h
    simp [ApplyJsonPatch, h]
  · intro patch t e h
    simp [ApplyJsonPatch, h]
  · cases hdec : jp.DecodePatch payload.DeploymentTemplate.Spec.PatchJson with
    | error d =>
      rw [update_decode_error repo jp payload w d hdec]
      show "Bulk Update Failed" ≠ "Patch Failed"
      decide
    | ok patch =>
      rw [update_eq repo jp payload w patch hdec]
      rcases hu : updateScopes repo jp patch payload w with ⟨_ | err, m1, w2⟩
      · show "Bulk Update is successful" ≠ "Patch Failed"
        decide
      · show "Bulk Update Failed" ≠ "Patch Failed"
        decide
  · intro patch hdec
    have hint := updateScopes_genuine repo jp patch payload w
    have hwr : ∀ new c m k v,
        (BulkUpdateDeploymentTemplate repo jp payload w).2.calls = w.calls ++ new →
        c ∈ new → c.written = some m → m.get? k = some v →
        ∃ t, jp.Apply patch t = Except.ok v := by
      intro new c m k v hnew hc hm hk
      have hcarry := update_maps repo jp payload w patch hdec new hnew
      obtain ⟨before, after, hl⟩ := List.append_of_mem hc
      have := hcarry before c after m hl hm
      rw [this] at hk
      exact genuine_assign_patched jp patch _ k v hk
    refine ⟨hint, hwr, ?_⟩
    intro hno
    constructor
    · intro k hk
      obtain ⟨t, ht⟩ := hint k _ hk
      exact hno t ht
    · intro new c m k hnew hc hm hk
      obtain ⟨t, ht⟩ := hwr new c m k _ hnew hc hm hk
      exact hno t ht

/-- An instance of C18: the sample patch library yields documents only, and the map given
to the bulk write of environment `10` does not hold the placeholder. -/
theorem C18_patch_failed_placeholder_witness :
    (∃ t, samplePatch.Apply "v2" t = Except.ok (imageDoc "v2")) ∧
    GoMap.get? [(11, imageDoc "v2"), (1, imageDoc "v2")] 1 ≠ some "Patch Failed" :=
  ⟨((C18_patch_failed_placeholder healthy.repo samplePatch
        (selection true [10] replaceImageText) start).2.2.2 "v2" (by decide)).2.1
      (BulkUpdateDeploymentTemplate healthy.repo samplePatch
        (selection true [10] replaceImageText) start).2.calls
      (Call.BulkUpdateChartsEnvYamlOverrideById [(11, imageDoc "v2"), (1, imageDoc "v2")] none)
      [(11, imageDoc "v2"), (1, imageDoc "v2")] 1 (imageDoc "v2")
      (by decide) (by decide) rfl (by decide),
    (((C18_patch_failed_placeholder healthy.repo samplePatch
        (selection true [10] replaceImageText) start).2.2.2 "v2" (by decide)).2.2
      (by
        intro t
        simp only [samplePatch]
        split
        · decide
        · simp)).2
      (BulkUpdateDeploymentTemplate healthy.repo samplePatch
        (selection true [10] replaceImageText) start).2.calls
      (Call.BulkUpdateChartsEnvYamlOverrideById [(11, imageDoc "v2"), (1, imageDoc "v2")] none)
      [(11, imageDoc "v2"), (1, imageDoc "v2")] 1 (by decide) (by decide) rfl⟩

/-! ## Lemmas on the dedup of entries -/

theorem dedupFrom_congr :
    ∀ (l : List ImpactedObjectsResponse) (s1 s2 : List Int), (∀ k, k ∈ s1 ↔ k ∈ s2) →
      dedupFrom s1 l = dedupFrom s2 l
  | [], _, _, _ => rfl
  | x :: rest, s1, s2, h => by
    simp only [dedupFrom]
    by_cases hx : x.AppId ∈ s1
    · rw [if_pos hx, if_pos ((h _).1 hx)]
      exact dedupFrom_congr rest s1 s2 h
    · rw [if_neg hx, if_neg (fun h2 => hx ((h _).2 h2))]
      congr 1
      apply dedupFrom_congr
      intro k
      simp [h k]

theorem dedupFrom_appOf :
    ∀ (l : List ImpactedObjectsResponse) (seen : List Int),
      (dedupFrom seen l).map appOf = firstSeen seen (l.map appOf)
  | [], _ => rfl
  | x :: rest, seen => by
    simp only [dedupFrom, List.map_cons, firstSeen]
    by_cases hx : x.AppId ∈ seen
    · rw [if_pos hx, if_pos (by simpa [appOf] using hx)]
      exact dedupFrom_appOf rest seen
    · rw [if_neg hx, if_neg (by simpa [appOf] using hx), List.map_cons]
      congr 1
      exact dedupFrom_appOf rest (x.AppId :: seen)

theorem appOf_ids (l : List ImpactedObjectsResponse) :
    (l.map appOf).map App.Id = l.map ImpactedObjectsResponse.AppId := by
  simp [List.map_map, Function.comp_def, appOf]

theorem dedupFrom_mem_ids (id : Int) (l : List ImpactedObjectsResponse) (seen : List Int) :
    id ∈ (dedupFrom seen l).map ImpactedObjectsResponse.AppId ↔
      id ∈ l.map ImpactedObjectsResponse.AppId ∧ id ∉ seen := by
  rw [← appOf_ids, dedupFrom_appOf, firstSeen_mem_ids, appOf_ids]

theorem dedupFrom_find (x : ImpactedObjectsResponse) :
    ∀ (l : List ImpactedObjectsResponse) (seen : List Int), x ∈ dedupFrom seen l →
      l.find? (fun y => decide (y.AppId = x.AppId)) = some x
  | [], _, h => by simp [dedupFrom] at h
  | y :: rest, seen, h => by
    simp only [dedupFrom] at h
    by_cases hy : y.AppId ∈ seen
    · rw [if_pos hy] at h
      have hx : x.AppId ∈ (dedupFrom seen rest).map ImpactedObjectsResponse.AppId :=
        List.mem_map_of_mem _ h
      rw [dedupFrom_mem_ids] at hx
      have hne : ¬ y.AppId = x.AppId := fun heq => hx.2 (heq ▸ hy)
      rw [List.find?_cons_of_neg _ (by simpa using hne)]
      exact dedupFrom_find x rest seen h
    · rw [if_neg hy, List.mem_cons] at h
      rcases h with h | h
      · subst h
        simp
      · have hx : x.AppId ∈
            (dedupFrom (y.AppId :: seen) rest).map ImpactedObjectsResponse.AppId :=
          List.mem_map_of_mem _ h
        rw [dedupFrom_mem_ids] at hx
        have hne : ¬ y.AppId = x.AppId := fun heq => hx.2 (by rw [heq]; simp)
        rw [List.find?_cons_of_neg _ (by simpa using hne)]
        exact dedupFrom_find x rest (y.AppId :: seen) h

theorem dedupFrom_entryOf (envId : Int) :
    ∀ (L : List App) (seen : List Int),
      dedupFrom seen (L.map (entryOf envId)) = (firstSeen seen L).map (entryOf envId)
  | [], _ => rfl
  | a :: rest, seen => by
    simp only [List.map_cons, dedupFrom, firstSeen]
    by_cases ha : a.Id ∈ seen
    · rw [if_pos (by simpa [entryOf] using ha), if_pos ha]
      exact dedupFrom_entryOf envId rest seen
    · rw [if_neg (by simpa [entryOf] using ha), if_neg ha, List.map_cons]
      congr 1
      exact dedupFrom_entryOf envId rest (a.Id :: seen)

theorem dedupFrom_append :
    ∀ (A B : List ImpactedObjectsResponse) (seen : List Int),
      dedupFrom seen (A ++ B) =
        dedupFrom seen A ++
          dedupFrom (seen ++ (dedupFrom seen A).map ImpactedObjectsResponse.AppId) B
  | [], B, seen => by simp [dedupFrom]
  | x :: A, B, seen => by
    simp only [List.cons_append, dedupFrom, List.append_eq]
    by_cases hx : x.AppId ∈ seen
    · rw [if_pos hx, if_pos hx]
      exact dedupFrom_append A B seen
    · rw [if_neg hx, if_neg hx, dedupFrom_append A B (x.AppId :: seen), List.cons_append]
      congr 2
      apply dedupFrom_congr
      intro k
      simp only [List.cons_append, List.mem_cons, List.mem_append, List.map_cons]
      constructor
      · rintro (h | h | h)
        · exact Or.inr (Or.inl h)
        · exact Or.inl h
        · exact Or.inr (Or.inr h)
      · rintro (h | h | h)
        · exact Or.inr (Or.inl h)
        · exact Or.inl h
        · exact Or.inr (Or.inr h)

theorem entries_fetchedApps (c : Call) (x : ImpactedObjectsResponse) (h : x ∈ c.entries) :
    appOf x ∈ c.fetchedApps := by
  cases c with
  | FindBulkAppNameForGlobal inc exc r =>
    cases r with
    | error e => simp [Call.entries] at h
    | ok apps =>
      simp only [Call.entries, List.mem_map] at h
      obtain ⟨a, ha, rfl⟩ := h
      exact ha
  | FindBulkAppNameForEnv inc exc envId r =>
    cases r with
    | error e => simp [Call.entries] at h
    | ok apps =>
      simp only [Call.entries, List.mem_map] at h
      obtain ⟨a, ha, rfl⟩ := h
      exact ha
  | FindBulkChartsByAppNameSubstring _ _ _ => simp [Call.entries] at h
  | FindBulkChartsEnvByAppNameSubstring _ _ _ _ => simp [Call.entries] at h
  | BulkUpdateChartsValuesYamlAndGlobalOverrideById _ _ => simp [Call.entries] at h
  | BulkUpdateChartsEnvYamlOverrideById _ _ => simp [Call.entries] at h
  | Apply _ _ => simp [Call.entries] at h

/-! ## Lemmas on the fetches behind the result of `GetBulkAppName` -/

theorem envPass_dedup {σ : Type} (repo : BulkUpdateRepository σ) (inc exc : List String)
    (e : Int) (track : GoMap) (out : List ImpactedObjectsResponse) (w : World σ)
    (pre : List Call) (ht : Tracked track out)
    (ho : out = dedupFrom [] (pre.flatMap Call.entries)) :
    ∃ new1, (envPass repo inc exc e track out w).2.2.2.calls = w.calls ++ new1 ∧
      (∀ c ∈ new1, ∃ r, c = Call.FindBulkAppNameForEnv inc exc e r) ∧
      Tracked (envPass repo inc exc e track out w).2.1
        (envPass repo inc exc e track out w).2.2.1 ∧
      (envPass repo inc exc e track out w).2.2.1 =
        dedupFrom [] ((pre ++ new1).flatMap Call.entries) ∧
      ((envPass repo inc exc e track out w).1 = none →
        new1.map Call.kind = [Kind.fetchAppsEnv e]) := by
  rcases hf : repo.FindBulkAppNameForEnv inc exc e w.db with ⟨err | L, db⟩
  · refine ⟨[Call.FindBulkAppNameForEnv inc exc e (Except.error err)], ?_, ?_, ?_, ?_, ?_⟩
    · simp [envPass, hf]
    · intro c hc
      exact ⟨_, List.mem_singleton.1 hc⟩
    · simpa [envPass, hf] using ht
    · simp only [envPass, hf, List.flatMap_append, List.flatMap_singleton, Call.entries,
        List.append_nil]
      exact ho
    · simp [envPass, hf]
  · obtain ⟨h1, h2⟩ := trackApps_spec e L track out ht
    refine ⟨[Call.FindBulkAppNameForEnv inc exc e (Except.ok L)], ?_, ?_, ?_, ?_, ?_⟩
    · simp [envPass, hf]
    · intro c hc
      exact ⟨_, List.mem_singleton.1 hc⟩
    · simpa [envPass, hf] using h2
    · simp only [envPass, hf, List.flatMap_append, List.flatMap_singleton, Call.entries]
      rw [h1, dedupFrom_append, ← ho, List.nil_append, dedupFrom_entryOf]
    · intro _
      rfl

theorem envPasses_dedup {σ : Type} (repo : BulkUpdateRepository σ) (inc exc : List String) :
    ∀ (envIds : List Int) (track : GoMap) (out : List ImpactedObjectsResponse) (w : World σ)
      (pre : List Call), Tracked track out →
      out = dedupFrom [] (pre.flatMap Call.entries) →
      ∃ new, (envPasses repo inc exc envIds track out w).2.2.2.calls = w.calls ++ new ∧
        (∀ c ∈ new, ∃ e r, e ∈ envIds ∧ c = Call.FindBulkAppNameForEnv inc exc e r) ∧
        (envPasses repo inc exc envIds track out w).2.2.1 =
          dedupFrom [] ((pre ++ new).flatMap Call.entries) ∧
        ((envPasses repo inc exc envIds track out w).1 = none →
          new.map Call.kind = envIds.map Kind.fetchAppsEnv) := by
  intro envIds
  induction envIds with
  | nil =>
    intro track out w pre _ ho
    exact ⟨[], by simp [envPasses], by simp, by simpa [envPasses] using ho,
      fun _ => rfl⟩
  | cons e es ih =>
    intro track out w pre ht ho
    obtain ⟨new1, h1, h2, h3, h4, h5⟩ := envPass_dedup repo inc exc e track out w pre ht ho
    rcases hp : envPass repo inc exc e track out w with ⟨_ | err, t1, o1, w1⟩
    · rw [hp] at h1 h3 h4 h5
      simp only at h1 h3 h4 h5
      obtain ⟨new2, g1, g2, g3, g4⟩ := ih t1 o1 w1 (pre ++ new1) h3 h4
      refine ⟨new1 ++ new2, ?_, ?_, ?_, ?_⟩
      · simp only [envPasses, hp]
        rw [g1, h1, List.append_assoc]
      · intro c hc
        rcases List.mem_append.1 hc with hc | hc
        · obtain ⟨r, hr⟩ := h2 c hc
          exact ⟨e, r, by simp, hr⟩
        · obtain ⟨e', r, he', hr⟩ := g2 c hc
          exact ⟨e', r, List.mem_cons_of_mem _ he', hr⟩
      · simp only [envPasses, hp]
        rw [g3, List.append_assoc]
      · simp only [envPasses, hp]
        intro hnone
        rw [List.map_append, h5 trivial, g4 hnone]
        rfl
    · rw [hp] at h1 h4
      simp only at h1 h4
      refine ⟨new1, ?_, ?_, ?_, ?_⟩
      · simp only [envPasses, hp]
        exact h1
      · intro c hc
        obtain ⟨r, hr⟩ := h2 c hc
        exact ⟨e, r, by simp, hr⟩
      · simp only [envPasses, hp]
        exact h4
      · simp [envPasses, hp]

theorem resolvePasses_dedup {σ : Type} (repo : BulkUpdateRepository σ)
    (payload : BulkUpdatePayload) (w : World σ) :
    ∃ new, (resolvePasses repo payload w).2.2.2.calls = w.calls ++ new ∧
      (∀ c ∈ new,
        (∃ r, c = Call.FindBulkAppNameForGlobal payload.Includes.Names
          payload.Excludes.Names r) ∨
        (∃ e r, e ∈ payload.EnvIds ∧ c = Call.FindBulkAppNameForEnv payload.Includes.Names
          payload.Excludes.Names e r)) ∧
      (resolvePasses repo payload w).2.2.1 = dedupFrom [] (new.flatMap Call.entries) ∧
      ((resolvePasses repo payload w).1 = none →
        new.map Call.kind =
          (if payload.Global then [Kind.fetchAppsGlobal] else []) ++
            payload.EnvIds.map Kind.fetchAppsEnv) := by
  cases hg : payload.Global with
  | false =>
    obtain ⟨new, h1, h2, h3, h4⟩ := envPasses_dedup repo payload.Includes.Names
      payload.Excludes.Names payload.EnvIds GoMap.empty [] w [] Tracked.empty rfl
    refine ⟨new, ?_, ?_, ?_, ?_⟩
    · simpa [resolvePasses, hg] using h1
    · intro c hc
      exact Or.inr (h2 c hc)
    · simpa [resolvePasses, hg] using h3
    · simpa [resolvePasses, hg] using h4
  | true =>
    rcases hf : repo.FindBulkAppNameForGlobal payload.Includes.Names payload.Excludes.Names
      w.db with ⟨err | L, db⟩
    · refine ⟨[Call.FindBulkAppNameForGlobal payload.Includes.Names payload.Excludes.Names
        (Except.error err)], ?_, ?_, ?_, ?_⟩
      · simp [resolvePasses, hg, globalPass, hf]
      · intro c hc
        exact Or.inl ⟨_, List.mem_singleton.1 hc⟩
      · simp [resolvePasses, hg, globalPass, hf, Call.entries, dedupFrom]
      · simp [resolvePasses, hg, globalPass, hf]
    · obtain ⟨t1, ht1, hgp⟩ := globalPass_ok repo payload.Includes.Names
        payload.Excludes.Names w L db hf
      have ho : (firstSeen [] L).map (entryOf 0) =
          dedupFrom [] ([Call.FindBulkAppNameForGlobal payload.Includes.Names
            payload.Excludes.Names (Except.ok L)].flatMap Call.entries) := by
        simp only [List.flatMap_singleton, Call.entries]
        rw [dedupFrom_entryOf]
      obtain ⟨new2, g1, g2, g3, g4⟩ := envPasses_dedup repo payload.Includes.Names
        payload.Excludes.Names payload.EnvIds t1 ((firstSeen [] L).map (entryOf 0))
        ⟨db, w.calls ++ [Call.FindBulkAppNameForGlobal payload.Includes.Names
          payload.Excludes.Names (Except.ok L)]⟩
        [Call.FindBulkAppNameForGlobal payload.Includes.Names payload.Excludes.Names
          (Except.ok L)] ht1 ho
      refine ⟨Call.FindBulkAppNameForGlobal payload.Includes.Names payload.Excludes.Names
        (Except.ok L) :: new2, ?_, ?_, ?_, ?_⟩
      · simp only [resolvePasses, hg, if_true, hgp]
        rw [g1]
        simp
      · intro c hc
        rcases List.mem_cons.1 hc with rfl | hc
        · exact Or.inl ⟨_, rfl⟩
        · exact Or.inr (g2 c hc)
      · simp only [resolvePasses, hg, if_true, hgp]
        rw [g3]
        rfl
      · simp only [resolvePasses, hg, if_true, hgp]
        intro hnone
        rw [List.map_cons, g4 hnone]
        rfl

theorem trackApps_ext (envId : Int) :
    ∀ (L : List App) (track : GoMap) (out : List ImpactedObjectsResponse),
      ∃ ext, (trackApps envId L track out).2 = out ++ ext ∧
        ∀ x ∈ ext, x ∈ L.map (entryOf envId)
  | [], track, out => ⟨[], by simp [trackApps], by simp⟩
  | a :: rest, track, out => by
    cases hg : track.get? a.Id with
    | some v =>
      obtain ⟨ext, h1, h2⟩ := trackApps_ext envId rest track out
      refine ⟨ext, by simpa [trackApps, hg] using h1, ?_⟩
      intro x hx
      exact List.mem_cons_of_mem _ (h2 x hx)
    | none =>
      obtain ⟨ext, h1, h2⟩ := trackApps_ext envId rest (track.set a.Id a.AppName)
        (out ++ [{ AppId := a.Id, AppName := a.AppName, EnvId := envId }])
      refine ⟨{ AppId := a.Id, AppName := a.AppName, EnvId := envId } :: ext, ?_, ?_⟩
      · simp only [trackApps, hg]
        rw [h1]
        simp
      · intro x hx
        rcases List.mem_cons.1 hx with rfl | hx
        · exact List.mem_cons_self _ _
        · exact List.mem_cons_of_mem _ (h2 x hx)

theorem envPasses_passes {σ : Type} (repo : BulkUpdateRepository σ) (inc exc : List String) :
    ∀ (envIds : List Int) (track : GoMap) (out : List ImpactedObjectsResponse) (w : World σ),
      (envPasses repo inc exc envIds track out w).1 = none →
      ∃ passes : List (List ImpactedObjectsResponse),
        (envPasses repo inc exc envIds track out w).2.2.1 = out ++ passes.flatten ∧
        List.Forall₂ (fun e p => ∀ x ∈ p, x.EnvId = e) envIds passes := by
  intro envIds
  induction envIds with
  | nil =>
    intro track out w _
    exact ⟨[], by simp [envPasses], List.Forall₂.nil⟩
  | cons e es ih =>
    intro track out w hnone
    rcases hf : repo.FindBulkAppNameForEnv inc exc e w.db with ⟨err | L, db⟩
    · simp [envPasses, envPass, hf] at hnone
    · obtain ⟨ext, h1, h2⟩ := trackApps_ext e L track out
      simp only [envPasses, envPass, hf] at hnone ⊢
      obtain ⟨ps, g1, g2⟩ := ih _ _ _ hnone
      refine ⟨ext :: ps, ?_, List.Forall₂.cons ?_ g2⟩
      · rw [g1, h1, List.flatten_cons, List.append_assoc]
      · intro x hx
        obtain ⟨a, _, rfl⟩ := List.mem_map.1 (h2 x hx)
        rfl

theorem resolve_log {σ : Type} (repo : BulkUpdateRepository σ) (payload : BulkUpdatePayload)
    (w w2 : World σ) (out : List ImpactedObjectsResponse) (new : List Call)
    (hrun : GetBulkAppName repo payload w = ((some out, none), w2))
    (hnew : w2.calls = w.calls ++ new) :
    (∀ c ∈ new,
      (∃ r, c = Call.FindBulkAppNameForGlobal payload.Includes.Names
        payload.Excludes.Names r) ∨
      (∃ e r, e ∈ payload.EnvIds ∧ c = Call.FindBulkAppNameForEnv payload.Includes.Names
        payload.Excludes.Names e r)) ∧
    out = dedupFrom [] (new.flatMap Call.entries) ∧
    new.map Call.kind =
      (if payload.Global then [Kind.fetchAppsGlobal] else []) ++
        payload.EnvIds.map Kind.fetchAppsEnv := by
  obtain ⟨track, ht⟩ := resolve_success_inv repo payload w w2 out hrun
  obtain ⟨new', h1, h2, h3, h4⟩ := resolvePasses_dedup repo payload w
  rw [ht] at h1 h3 h4
  simp only at h1 h3 h4
  have hEq : new = new' := List.append_cancel_left (hnew.symm.trans h1)
  subst hEq
  exact ⟨h2, h3, h4 trivial⟩

/-! ## Claims on the entries of `GetBulkAppName` -/

/-- C14, as amended: `GetBulkAppName` does no name filtering of its own.  In a run that
succeeds, every call is a fetch of applications that is given `Includes.Names` and
`Excludes.Names` unchanged, and every entry of the result is an application returned by
one of these fetches.  Hence, when no fetch returns an application whose name is in both
lists, no such application is in the result. -/
theorem C14_filtering_is_left_to_fetches {σ : Type} (repo : BulkUpdateRepository σ)
    (payload : BulkUpdatePayload) (w w2 : World σ) (out : List ImpactedObjectsResponse)
    (new : List Call)
    (hrun : GetBulkAppName repo payload w = ((some out, none), w2))
    (hnew : w2.calls = w.calls ++ new) :
    (∀ c ∈ new,
      (∃ r, c = Call.FindBulkAppNameForGlobal payload.Includes.Names
        payload.Excludes.Names r) ∨
      (∃ e r, e ∈ payload.EnvIds ∧ c = Call.FindBulkAppNameForEnv payload.Includes.Names
        payload.Excludes.Names e r)) ∧
    (∀ x ∈ out, ∃ c ∈ new,
      ({ Id := x.AppId, AppName := x.AppName } : App) ∈ c.fetchedApps) ∧
    ((∀ c ∈ new, ∀ a ∈ c.fetchedApps,
        ¬ (a.AppName ∈ payload.Includes.Names ∧ a.AppName ∈ payload.Excludes.Names)) →
      ∀ x ∈ out,
        ¬ (x.AppName ∈ payload.Includes.Names ∧ x.AppName ∈ payload.Excludes.Names)) := by
  obtain ⟨h1, h2, _⟩ := resolve_log repo payload w w2 out new hrun hnew
  have hsrc : ∀ x ∈ out, ∃ c ∈ new,
      ({ Id := x.AppId, AppName := x.AppName } : App) ∈ c.fetchedApps := by
    intro x hx
    rw [h2] at hx
    have hfind := dedupFrom_find x _ [] hx
    have hmem := List.mem_of_find?_eq_some hfind
    obtain ⟨c, hc, hxc⟩ := List.mem_flatMap.1 hmem
    exact ⟨c, hc, entries_fetchedApps c x hxc⟩
  refine ⟨h1, hsrc, ?_⟩
  intro hcontract x hx
  obtain ⟨c, hc, ha⟩ := hsrc x hx
  exact hcontract c hc _ ha

/-- An instance of C14 as amended: the one entry of the result is an application
returned by the global fetch. -/
theorem C14_filtering_is_left_to_fetches_witness :
    ∃ c ∈ [Call.FindBulkAppNameForGlobal ["app1"] ["app1"]
        (Except.ok [{ Id := 1, AppName := "app1" }])],
      ({ Id := 1, AppName := "app1" } : App) ∈ c.fetchedApps :=
  (C14_filtering_is_left_to_fetches healthy.repo bothLists start
    ⟨1, [Call.FindBulkAppNameForGlobal ["app1"] ["app1"]
      (Except.ok [{ Id := 1, AppName := "app1" }])]⟩
    [{ AppId := 1, AppName := "app1", EnvId := 0 }]
    [Call.FindBulkAppNameForGlobal ["app1"] ["app1"]
      (Except.ok [{ Id := 1, AppName := "app1" }])]
    (by decide) (by decide)).2.1
    { AppId := 1, AppName := "app1", EnvId := 0 } (List.mem_singleton.2 rfl)

/-- C14, as stated, fails: with `app1` in both `Includes.Names` and `Excludes.Names` and
a repository whose global fetch returns the application `app1`, that application is in
the result. -/
theorem C14_counterexample :
    "app1" ∈ bothLists.Includes.Names ∧ "app1" ∈ bothLists.Excludes.Names ∧
    healthy.repo.FindBulkAppNameForGlobal bothLists.Includes.Names
        bothLists.Excludes.Names 0 = (Except.ok [{ Id := 1, AppName := "app1" }], 1) ∧
    (GetBulkAppName healthy.repo bothLists start).1 =
      (some [{ AppId := 1, AppName := "app1", EnvId := 0 }], none) := by
  decide

/-- C15, as amended: in a run of `GetBulkAppName` that succeeds, the result is the
entries `glob` of the global pass (the result of the same call without environment ids)
followed by one stretch of entries per environment id, in order; every entry of `glob`
has `EnvId = 0`, the value of the field left unset, and every entry of the stretch of an
environment `e` has `EnvId = e`.  So the entries of an environment `e ≠ 0` differ in
`EnvId` from every entry of the global pass. -/
theorem C15_environment_annotation {σ : Type} (repo : BulkUpdateRepository σ)
    (payload : BulkUpdatePayload) (w w2 : World σ) (out : List ImpactedObjectsResponse)
    (hrun : GetBulkAppName repo payload w = ((some out, none), w2)) :
    ∃ (glob : List ImpactedObjectsResponse) (passes : List (List ImpactedObjectsResponse))
      (w1 : World σ),
      GetBulkAppName repo { payload with EnvIds := [] } w = ((some glob, none), w1) ∧
      out = glob ++ passes.flatten ∧
      (∀ x ∈ glob, x.EnvId = 0) ∧
      List.Forall₂
        (fun e p => ∀ x ∈ p, x.EnvId = e ∧ (e ≠ 0 → ∀ g ∈ glob, g.EnvId ≠ x.EnvId))
        payload.EnvIds passes := by
  obtain ⟨track, ht⟩ := resolve_success_inv repo payload w w2 out hrun
  have happ := resolvePasses_append repo payload w [] payload.EnvIds (by simp)
  rw [ht] at happ
  rcases hg : resolvePasses repo { payload with EnvIds := [] } w with ⟨_ | err, t1, o1, w1⟩
  · rw [hg] at happ
    simp only at happ
    have ho : (resolvePasses repo { payload with EnvIds := [] } w).2.2.1 = o1 := by
      rw [hg]
    have hglob : ∀ x ∈ o1, x.EnvId = 0 := by
      intro x hx
      rw [← ho] at hx
      cases hG : payload.Global with
      | false =>
        simp [resolvePasses, hG, envPasses] at hx
      | true =>
        rcases hf : repo.FindBulkAppNameForGlobal payload.Includes.Names
          payload.Excludes.Names w.db with ⟨err | L, db⟩
        · simp [resolvePasses, hG, globalPass, hf] at hg
        · obtain ⟨ext, h1, h2⟩ := trackApps_ext 0 L GoMap.empty []
          simp only [resolvePasses, hG, if_true, globalPass, hf, envPasses] at hx
          rw [h1, List.nil_append] at hx
          obtain ⟨a, _, rfl⟩ := List.mem_map.1 (h2 x hx)
          rfl
    have hnone : (envPasses repo payload.Includes.Names payload.Excludes.Names
        payload.EnvIds t1 o1 w1).1 = none := by
      rw [← happ]
    obtain ⟨passes, g1, g2⟩ := envPasses_passes repo payload.Includes.Names
      payload.Excludes.Names payload.EnvIds t1 o1 w1 hnone
    rw [← happ] at g1
    simp only at g1
    refine ⟨o1, passes, w1, ?_, g1, hglob, ?_⟩
    · simp [GetBulkAppName, hg]
    · refine g2.imp ?_
      intro e p hp x hx
      refine ⟨hp x hx, ?_⟩
      intro he g hgm
      rw [hglob g hgm, hp x hx]
      exact fun h => he h.symm
  · rw [hg] at happ
    simp at happ

/-- An instance of C15 as amended: the global scope and the environments `10` and `20`
with overlapping fetches. -/
theorem C15_environment_annotation_witness :
    ∃ (glob : List ImpactedObjectsResponse) (passes : List (List ImpactedObjectsResponse))
      (w1 : World Nat),
      GetBulkAppName overlapping.repo { selection true [10, 20] "" with EnvIds := [] } start
        = ((some glob, none), w1) ∧
      overlappingResult = glob ++ passes.flatten ∧
      (∀ x ∈ glob, x.EnvId = 0) ∧
      List.Forall₂
        (fun e p => ∀ x ∈ p, x.EnvId = e ∧ (e ≠ 0 → ∀ g ∈ glob, g.EnvId ≠ x.EnvId))
        (selection true [10, 20] "").EnvIds passes :=
  C15_environment_annotation overlapping.repo (selection true [10, 20] "") start
    ⟨3, overlappingCalls⟩ overlappingResult (by decide)

/-- C15, as stated, fails for the environment id `0`: the entry that the pass of
environment `0` emits for an application is the entry that the global pass emits for
it, so the two scopes cannot be told apart. -/
theorem C15_counterexample :
    (0 : Int) ∈ (selection false [0] "").EnvIds ∧
    (GetBulkAppName healthy.repo (selection true [] "") start).1 =
      (some [{ AppId := 1, AppName := "app1", EnvId := 0 }], none) ∧
    (GetBulkAppName healthy.repo (selection false [0] "") start).1 =
      (some [{ AppId := 1, AppName := "app1", EnvId := 0 }], none) := by
  decide

/-- C16: `GetBulkAppName` lists each fetched application once over the whole result.  In
a run that succeeds, the calls are the global fetch (only if `global` is set) followed by
the fetch of each environment id in order, and the result is the first-seen-wins dedup by
`AppId` of the concatenation of what they returned, annotated with `EnvId = 0` for the
global fetch and with the environment id otherwise.  Hence no two entries share an
`AppId`, the `AppId` of every fetched application occurs in the result, and each entry is
the first fetched one with its `AppId`, so it belongs to the first pass that fetched
it. -/
theorem C16_each_app_listed_once {σ : Type} (repo : BulkUpdateRepository σ)
    (payload : BulkUpdatePayload) (w w2 : World σ) (out : List ImpactedObjectsResponse)
    (new : List Call)
    (hrun : GetBulkAppName repo payload w = ((some out, none), w2))
    (hnew : w2.calls = w.calls ++ new) :
    new.map Call.kind =
      (if payload.Global then [Kind.fetchAppsGlobal] else []) ++
        payload.EnvIds.map Kind.fetchAppsEnv ∧
    out = dedupByAppId (new.flatMap Call.entries) ∧
    (out.map ImpactedObjectsResponse.AppId).Nodup ∧
    (∀ x ∈ new.flatMap Call.entries, x.AppId ∈ out.map ImpactedObjectsResponse.AppId) ∧
    (∀ x ∈ out,
      (new.flatMap Call.entries).find? (fun y => decide (y.AppId = x.AppId)) = some x) := by
  obtain ⟨_, h2, h3⟩ := resolve_log repo payload w w2 out new hrun hnew
  obtain ⟨track, ht⟩ := resolve_success_inv repo payload w w2 out hrun
  have htr : Tracked track out := by
    have := resolvePasses_tracked repo payload w
    rw [ht] at this
    exact this
  refine ⟨h3, h2, htr.2, ?_, ?_⟩
  · intro x hx
    rw [h2, dedupFrom_mem_ids]
    exact ⟨List.mem_map_of_mem _ hx, by simp⟩
  · intro x hx
    rw [h2] at hx
    exact dedupFrom_find x _ [] hx

/-- An instance of C16: the global scope and the environments `10` and `20` with
overlapping fetches; application `2` stays with the global pass and application `3` with
environment `10`. -/
theorem C16_each_app_listed_once_witness :
    overlappingCalls.map Call.kind =
      (if (selection true [10, 20] "").Global then [Kind.fetchAppsGlobal] else []) ++
        (selection true [10, 20] "").EnvIds.map Kind.fetchAppsEnv ∧
    overlappingResult = dedupByAppId (overlappingCalls.flatMap Call.entries) ∧
    (overlappingResult.map ImpactedObjectsResponse.AppId).Nodup ∧
    (∀ x ∈ overlappingCalls.flatMap Call.entries,
      x.AppId ∈ overlappingResult.map ImpactedObjectsResponse.AppId) ∧
    (∀ x ∈ overlappingResult,
      (overlappingCalls.flatMap Call.entries).find? (fun y => decide (y.AppId = x.AppId))
        = some x) :=
  C16_each_app_listed_once overlapping.repo (selection true [10, 20] "") start
    ⟨3, overlappingCalls⟩ overlappingResult overlappingCalls (by decide) (by decide)

/-- An instance of C11: the fetch for environment `20` fails after environment `10` was
written, and the error returned is that of this fetch, the last call of the run. -/
theorem C11_status_matches_error_witness :
    (samplePatch.DecodePatch
        (selection false [10, 20] replaceImageText).DeploymentTemplate.Spec.PatchJson
          = Except.error "connection refused" ∧
      (BulkUpdateDeploymentTemplate unreachable20.repo samplePatch
        (selection false [10, 20] replaceImageText) start).2 = start) ∨
    (∃ patch init last,
      samplePatch.DecodePatch
        (selection false [10, 20] replaceImageText).DeploymentTemplate.Spec.PatchJson
          = Except.ok patch ∧
      (BulkUpdateDeploymentTemplate unreachable20.repo samplePatch
        (selection false [10, 20] replaceImageText) start).2.calls
          = start.calls ++ (init ++ [last]) ∧
      Clean init ∧ last.failure = some "connection refused") :=
  (C11_status_matches_error unreachable20.repo samplePatch
    (selection false [10, 20] replaceImageText) start).2.2.2.1 "connection refused"
    (by decide)

end BulkUpdate
